import Mathlib

/-!
# Verification of the organoid-annotation analysis pipeline

A shallow embedding of `src/analyze.py` (the `analyze` subcommand): file
discovery, JSON parsing/filtering, scale resolution via image metadata,
OCR-based calibration-marker detection, polygon area/label computation, and
persistence.  Python numbers are modelled as rationals, fallible operations as
`Except PyErr`, and the external libraries (`shapely`, `easyocr`, `exif`,
`PIL`) as black-box inputs: the geometry library is a parameter (`Geom`) and
the per-image OCR/metadata results are supplied by an environment (`Env`).
-/

namespace Organoids

/-- The unhandled Python exceptions the script can raise. -/
inductive PyErr where
  | keyError (k : String)
  | typeError
  | nameError
  | zeroDivisionError
deriving Repr, DecidableEq

/-- Parsed JSON values (the result of `json.load` / `json.loads`); numbers are
modelled as rationals, objects as association lists in key-insertion order. -/
inductive Json where
  | null : Json
  | bool : Bool → Json
  | num  : ℚ → Json
  | str  : String → Json
  | arr  : List Json → Json
  | obj  : List (String × Json) → Json

/-- Lookup of a key in an association list (first occurrence). -/
def lookupKV : List (String × Json) → String → Option Json
  | [], _ => none
  | kv :: rest, k => if kv.1 = k then some kv.2 else lookupKV rest k

/-- `d[k]` as a total lookup: `some` value for an object with the key, `none`
otherwise. -/
def Json.getField : Json → String → Option Json
  | .obj kvs, k => lookupKV kvs k
  | _, _ => none

/-- `d[k]` as the script evaluates it: `KeyError` on an object without the
key, `TypeError` on a non-object (Python string indexing of a list, a string,
a number, ... raises `TypeError`). -/
def Json.getFieldE (j : Json) (k : String) : Except PyErr Json :=
  match j with
  | .obj kvs =>
    match lookupKV kvs k with
    | some v => .ok v
    | none => .error (.keyError k)
  | _ => .error .typeError

/-- Assignment into an association list: replace the (unique) existing entry
in place, else append — Python dict update/insert semantics. -/
def setKV : List (String × Json) → String → Json → List (String × Json)
  | [], k, v => [(k, v)]
  | kv :: rest, k, v => if kv.1 = k then (k, v) :: rest else kv :: setKV rest k v

/-- `d[k] = v` on a JSON object.  In the script this is only ever reached on a
dict (earlier `s["points"]` / `d["shapes"]` accesses fail first otherwise), so
the non-object case is left as the identity. -/
def Json.setField : Json → String → Json → Json
  | .obj kvs, k, v => .obj (setKV kvs k v)
  | j, _, _ => j

/-- A Python number used in arithmetic: `TypeError` for non-numeric JSON. -/
def Json.asNum : Json → Except PyErr ℚ
  | .num q => .ok q
  | _ => .error .typeError

/-- A Python string used in `os.path.join`: `TypeError` otherwise. -/
def Json.asStr : Json → Except PyErr String
  | .str s => .ok s
  | _ => .error .typeError

/-- Iterating `d["shapes"]`: the script expects a JSON list; iterating a
non-list value is modelled as a `TypeError` (iterating a dict or string would
yield strings, whose later `s["points"]` access raises `TypeError` anyway). -/
def Json.asArr : Json → Except PyErr (List Json)
  | .arr xs => .ok xs
  | _ => .error .typeError

/-- The test `"shapes" in d` (line 44): key test on a dict, membership on a
list, substring test on a string, `TypeError` on other parsed values. -/
def hasShapes : Json → Except PyErr Bool
  | .obj kvs => .ok (kvs.any (fun kv => kv.1 == "shapes"))
  | .arr xs => .ok (xs.any (fun x => match x with | .str s => s == "shapes" | _ => false))
  | .str s => .ok (decide ("shapes".toList <:+: s.toList))
  | _ => .error .typeError

/-- A 2D pixel coordinate. -/
abbrev Point := ℚ × ℚ

/-- `str.endswith(suffix)`: suffix test on the character sequence. -/
def pyEndsWith (s suffix : String) : Bool := suffix.toList.isSuffixOf s.toList

/-- Modelled on `os.path.dirname` for relative POSIX paths: everything before
the last separator, empty when there is none (the root-path corner case is
not needed by the script's relative annotation paths). -/
def dirname (p : String) : String :=
  String.mk (((p.toList.reverse.dropWhile (fun c => c ≠ '/')).drop 1).reverse)

/-- Modelled on `os.path.join` for POSIX paths: an absolute second component
replaces the first; otherwise they are joined with a single separator. -/
def pyJoin (a b : String) : String :=
  if b.toList.head? = some '/' then b
  else if a = "" then b
  else if a.toList.getLast? = some '/' then a ++ b
  else a ++ "/" ++ b

/-- One EasyOCR detection (`reader.readtext(img, detail=1)`): the bounding box
as its four corners (top-left, top-right, bottom-right, bottom-left), the
recognized text, and the confidence (unused by the script). -/
structure Detection where
  tl : Point
  tr : Point
  br : Point
  bl : Point
  text : String
  conf : ℚ

/-- Lines 92-93: `pattern.match(text)` for `pattern = re.compile(r'^(1[0-2]|[1-9])$')`
followed by `int(text)`.  The regex accepts exactly the decimal digit strings
of 1..12; Python's `$` also matches just before a single trailing newline, so
`"5\n"` etc. are accepted as well, and `int` ignores the trailing newline. -/
def matchMarker (text : String) : Option ℕ :=
  (List.range 12).findSome? (fun i =>
    if text == toString (i + 1) || text == toString (i + 1) ++ "\n" then some (i + 1) else none)

/-- The spec's filter predicate as worded: the text is exactly the decimal
digits of an integer 1..12, with no other characters.  Kept separate from
`matchMarker` (the source's Python-regex semantics) to compare the two. -/
def strictMarkerText (text : String) : Option ℕ :=
  (List.range 12).findSome? (fun i =>
    if text == toString (i + 1) then some (i + 1) else none)

/-- Lines 98-100: the bounding-box center as the mean of the two diagonal
corners (top-left and bottom-right). -/
def bboxCenter (det : Detection) : Point :=
  ((det.tl.1 + det.br.1) / 2, (det.tl.2 + det.br.2) / 2)

/-- Lines 90-106: the OCR-filtering loop.  `acc` is `ocr_text_map` in
insertion order (its key set coincides with `unique_numbers`, which is updated
in lock-step), `msgs` the diagnostics printed so far. -/
def buildOcrMapAux : List Detection → List (ℕ × Point) → List String →
    List (ℕ × Point) × List String
  | [], acc, msgs => (acc, msgs)
  | det :: rest, acc, msgs =>
    match matchMarker det.text with
    | some n =>
      if acc.any (fun kv => kv.1 == n) then
        buildOcrMapAux rest acc (msgs ++ ["Duplicate detected and skipped: " ++ toString n])
      else
        buildOcrMapAux rest (acc ++ [(n, bboxCenter det)]) msgs
    | none => buildOcrMapAux rest acc (msgs ++ ["Ignored non-matching OCR result: " ++ det.text])

/-- The OCR marker map and diagnostics produced for one image's detections. -/
def buildOcrMap (results : List Detection) : List (ℕ × Point) × List String :=
  buildOcrMapAux results [] []

/-- Lookup of a marker number in the OCR map. -/
def lookupMarker : List (ℕ × Point) → ℕ → Option Point
  | [], _ => none
  | kv :: rest, n => if kv.1 = n then some kv.2 else lookupMarker rest n

/-- Squared Euclidean distance.  The script compares `((dx)**2+(dy)**2)**0.5`
values; since the square root is strictly monotone on nonnegatives, comparing
squared distances yields the same branch at every comparison. -/
def dist2 (p c : Point) : ℚ := (p.1 - c.1) ^ 2 + (p.2 - c.2) ^ 2

/-- The actual Euclidean distance of the source (as a real number), used to
state claims about the comparisons the script makes. -/
noncomputable def euclidDist (p c : Point) : ℝ := Real.sqrt ((dist2 p c : ℚ) : ℝ)

/-- Lines 115-123: the nearest-marker loop.  The state is
`(closest_text, min_distance)`, where `none` for the distance stands for the
initial `float("inf")` (any finite distance compares below it). -/
def closestLoop (c : Point) : List (ℕ × Point) → Option ℕ × Option ℚ → Option ℕ × Option ℚ
  | [], st => st
  | (n, pt) :: rest, (ct, md) =>
    let d := dist2 pt c
    match md with
    | none => closestLoop c rest (some n, some d)
    | some m => if d < m then closestLoop c rest (some n, some d) else closestLoop c rest (ct, md)

/-- The marker attached to a shape whose centroid is `c`: the final
`closest_text` of the loop. -/
def closestMarker (ocrMap : List (ℕ × Point)) (c : Point) : Option ℕ :=
  (closestLoop c ocrMap (none, none)).1

/-- Round to the nearest integer, ties to even — the rounding of Python's
fixed-point float formatting (exact on the rationals our model produces; the
binary-float representation error of CPython is below the model's
resolution and not observable in any claim). -/
def roundHalfEven (q : ℚ) : ℤ :=
  let f := ⌊q⌋
  if q - f < 1 / 2 then f
  else if q - f > 1 / 2 then f + 1
  else if f % 2 = 0 then f else f + 1

/-- Two decimal digits with a leading zero. -/
def pad2 (k : ℕ) : String := (if k < 10 then "0" else "") ++ toString k

/-- Python's `"{:.2f}".format`: fixed-point with two decimals. -/
def format2 (q : ℚ) : String :=
  let n := roundHalfEven (q * 100)
  let sign := if n < 0 then "-" else ""
  let m := n.natAbs
  sign ++ toString (m / 100) ++ "." ++ pad2 (m % 100)

/-- The black-box polygon-geometry library (`shapely`): it receives the raw
`s["points"]` value and yields the polygon's area and centroid.  The spec
treats its algorithms as out of scope, so the model is parametric in it. -/
structure Geom where
  polyArea : Json → ℚ
  polyCentroid : Json → Point

/-- The scale state after lines 55-77: `pix_size`, `mag`, `exif_found`.
`mag` is stored as the raw JSON value: line 66 assigns
`mag = user_comment["objectiveMag"]` without a numeric check, so a
non-numeric value only fails at the division on line 111. -/
structure ScaleCtx where
  pixSize : ℚ
  mag : Json
  exifFound : Bool

/-- The black-box per-image data: `userComment` is the parsed JSON of the
EXIF user comment when `e.has_exif and hasattr(e, "user_comment")` holds
(`json.loads` is modelled by supplying the parsed value), `width`/`height`
the PIL image size, `ocr` the EasyOCR detections. -/
structure ImageData where
  userComment : Option Json
  width : ℕ
  height : ℕ
  ocr : List Detection

/-- The environment: what the filesystem's images contain, by path. -/
structure Env where
  image : String → ImageData

/-- Lines 55-107: resolve the scale for one record's image and, in the
fallback branch, run OCR.  Returns the scale context, the new value of
`ocr_text_map` (`none` in the EXIF branch, where the variable is not
assigned), and the messages printed.  Failures of the user-comment JSON
field accesses propagate. -/
def resolveScale (img : ImageData) (imagePath entry : String) (exifExt : String) :
    Except PyErr (ScaleCtx × Option (List (ℕ × Point)) × List String) :=
  if pyEndsWith imagePath exifExt then
    match img.userComment with
    | some uc =>
      match uc.getFieldE "effectivePixelSize" with
      | .error e => .error e
      | .ok epsJ =>
        match epsJ.asNum with
        | .error e => .error e
        | .ok eps =>
          match uc.getFieldE "objectiveMag" with
          | .error e => .error e
          | .ok om => .ok (⟨eps / 10 ^ 6, om, true⟩, none, [])
    | none =>
      .ok (⟨1, .num 1, false⟩, some (buildOcrMap img.ocr).1,
        ("Warning: " ++ imagePath ++ " referenced from " ++ entry ++ " has no valid EXIF data")
          :: ("Using pixel dimensions for " ++ imagePath ++ ": " ++ toString img.width ++ "x"
              ++ toString img.height ++ " pixels")
          :: (buildOcrMap img.ocr).2)
  else
    .ok (⟨1, .num 1, false⟩, some (buildOcrMap img.ocr).1,
      ("Using pixel dimensions for " ++ imagePath ++ ": " ++ toString img.width ++ "x"
          ++ toString img.height ++ " pixels")
        :: (buildOcrMap img.ocr).2)

/-- The area part of the label (line 126). -/
def areaLabelOf (ctx : ScaleCtx) (area : ℚ) : String :=
  if ctx.exifFound then "Area: " ++ format2 area ++ " mm²"
  else "Area: " ++ format2 area ++ " pixels²"

/-- The full label (lines 126-130): Python's `if closest_text:` is a
truthiness test, false both for `None` and for the number `0`. -/
def labelOf (ctx : ScaleCtx) (closest : Option ℕ) (area : ℚ) : String :=
  match closest with
  | some n => if n = 0 then areaLabelOf ctx area else toString n ++ " - " ++ areaLabelOf ctx area
  | none => areaLabelOf ctx area

/-- Lines 109-133 for a single shape `s`.  `mapSt` is the current state of the
`ocr_text_map` variable: `none` means it has never been assigned, in which
case reading it (line 119) raises `NameError`.  The evaluation order follows
the source: `s["points"]` (line 110), the division (line 111, `TypeError` for
a non-numeric `mag`, `ZeroDivisionError` for zero), then the marker loop
(lines 119-123) and the label/area stores (lines 126-133). -/
def processShape (geom : Geom) (ctx : ScaleCtx) (mapSt : Option (List (ℕ × Point)))
    (s : Json) : Except PyErr Json :=
  match s.getFieldE "points" with
  | .error e => .error e
  | .ok pts =>
    match ctx.mag.asNum with
    | .error e => .error e
    | .ok magQ =>
      if magQ = 0 then .error .zeroDivisionError
      else
        let area := geom.polyArea pts * ctx.pixSize / magQ
        match mapSt with
        | none => .error .nameError
        | some ocrMap =>
          .ok ((s.setField "label"
              (.str (labelOf ctx (closestMarker ocrMap (geom.polyCentroid pts)) area))).setField
            "area" (.num area))

/-- The `for s in d["shapes"]` loop: shapes processed left to right, the first
failure aborting the run. -/
def processShapes (geom : Geom) (ctx : ScaleCtx) (mapSt : Option (List (ℕ × Point))) :
    List Json → Except PyErr (List Json)
  | [] => .ok []
  | s :: rest =>
    match processShape geom ctx mapSt s with
    | .error e => .error e
    | .ok s' =>
      match processShapes geom ctx mapSt rest with
      | .error e => .error e
      | .ok rest' => .ok (s' :: rest')

/-- Lines 52-133 for one record `(entry, d)`: resolve the image path, the
scale and (fallback only) the OCR map, then process every shape.  `st` is the
incoming state of the `ocr_text_map` variable, which the EXIF branch leaves
untouched; the returned state is the one the following record sees. -/
def processRecord (env : Env) (exifExt : String) (geom : Geom)
    (st : Option (List (ℕ × Point))) (entry : String) (d : Json) :
    Except PyErr (Option (List (ℕ × Point)) × Json × List String) :=
  match d.getFieldE "imagePath" with
  | .error e => .error e
  | .ok rel =>
    match rel.asStr with
    | .error e => .error e
    | .ok relStr =>
      let imagePath := pyJoin (dirname entry) relStr
      match resolveScale (env.image imagePath) imagePath entry exifExt with
      | .error e => .error e
      | .ok (ctx, upd, msgs) =>
        let st' := match upd with | some m => some m | none => st
        match d.getFieldE "shapes" with
        | .error e => .error e
        | .ok shapesJ =>
          match shapesJ.asArr with
          | .error e => .error e
          | .ok shapes =>
            match processShapes geom ctx st' shapes with
            | .error e => .error e
            | .ok shapes' => .ok (st', d.setField "shapes" (.arr shapes'), msgs)

/-- Observable pipeline events, for the temporal claims: an entry's
measurement-loop iteration, and an entry's file write. -/
inductive Event where
  | measured (p : String)
  | wrote (p : String)
deriving Repr, DecidableEq

/-- Lines 52-135: the measurement loop over all kept records, threading the
`ocr_text_map` variable state and collecting outputs, messages, and one
`measured` event per iteration. -/
def measureLoop (env : Env) (exifExt : String) (geom : Geom) :
    Option (List (ℕ × Point)) → List (String × Json) →
    Except PyErr (Option (List (ℕ × Point)) × List (String × Json) × List String × List Event)
  | st, [] => .ok (st, [], [], [])
  | st, (p, d) :: rest =>
    match processRecord env exifExt geom st p d with
    | .error e => .error e
    | .ok (st', d', msgs) =>
      match measureLoop env exifExt geom st' rest with
      | .error e => .error e
      | .ok (st'', outs, msgs', evs) =>
        .ok (st'', (p, d') :: outs, msgs ++ msgs', .measured p :: evs)

/-- Lines 41-49: parse every discovered file (`json.load` failures are
supplied as `.error` inputs and abort the run) and keep those with a
`"shapes"` entry, warning on the rest. -/
def parseStage : List (String × Except PyErr Json) →
    Except PyErr (List (String × Json) × List String)
  | [] => .ok ([], [])
  | (p, r) :: rest =>
    match r with
    | .error e => .error e
    | .ok d =>
      match hasShapes d with
      | .error e => .error e
      | .ok has =>
        match parseStage rest with
        | .error e => .error e
        | .ok (data, warns) =>
          if has then .ok ((p, d) :: data, warns)
          else .ok (data, ("Warning: " ++ p ++ " has no shapes data") :: warns)

/-- Lines 136-140: the write loop.  The disk maps an annotation path to its
(structured) content; each kept record is serialized back over its own path,
emitting one `wrote` event. -/
def writeLoop (disk : String → Json) : List (String × Json) → (String → Json) × List Event
  | [] => (disk, [])
  | (p, d) :: rest =>
    ((writeLoop (fun q => if q = p then d else disk q) rest).1,
      .wrote p :: (writeLoop (fun q => if q = p then d else disk q) rest).2)

/-- The pipeline from the parsing stage on: parse/filter, measure every kept
record, then write every kept record back.  Returns the processed records,
the final disk, the event trace (measurement loop first, write loop second),
and all messages. -/
def runPipeline (env : Env) (exifExt : String) (geom : Geom)
    (files : List (String × Except PyErr Json)) (disk : String → Json) :
    Except PyErr (List (String × Json) × (String → Json) × List Event × List String) :=
  match parseStage files with
  | .error e => .error e
  | .ok (data, warns) =>
    match measureLoop env exifExt geom none data with
    | .error e => .error e
    | .ok (_, outs, msgs, mevs) =>
      .ok (outs, (writeLoop disk outs).1, mevs ++ (writeLoop disk outs).2, warns ++ msgs)

/-- A directory tree entry, for the discovery stage (lines 29-36): a plain
file or a directory with its listing. -/
inductive FS where
  | file (name : String)
  | dir (name : String) (children : List FS)

mutual

/-- Size of a tree entry (number of nodes), the termination measure of the
worklist traversal. -/
def fsSize : FS → ℕ
  | .file _ => 1
  | .dir _ cs => 1 + fsSizeList cs

/-- Total size of a listing. -/
def fsSizeList : List FS → ℕ
  | [] => 0
  | c :: rest => fsSize c + fsSizeList rest

end

/-- All files of a tree, as (full path, bare name) pairs; paths are built with
`os.path.join` from the enclosing directory's path. -/
def allFiles : String → List FS → List (String × String)
  | _, [] => []
  | p, .file n :: rest => (pyJoin p n, n) :: allFiles p rest
  | p, .dir n cs :: rest => allFiles (pyJoin p n) cs ++ allFiles p rest

/-- Lines 31-36: one pass of `for entry in os.listdir(dir)` over the listing
of the directory at path `p`: subdirectories are pushed (as (path, listing)
pairs, in listing order), and files whose bare name ends with `ext` are
collected (as full paths, in listing order). -/
def scanOne (p : String) (ext : String) : List FS → List (String × List FS) × List String
  | [] => ([], [])
  | .dir n cs :: rest =>
    ((pyJoin p n, cs) :: (scanOne p ext rest).1, (scanOne p ext rest).2)
  | .file n :: rest =>
    if pyEndsWith n ext then ((scanOne p ext rest).1, pyJoin p n :: (scanOne p ext rest).2)
    else scanOne p ext rest

/-- Termination measure of the worklist: total node count of the pending
directories. -/
def todoMeasure (todo : List (String × List FS)) : ℕ :=
  (todo.map (fun d => 1 + fsSizeList d.2)).sum

/-- Lines 29-36: the worklist traversal.  `todo.pop()` removes the LAST
pending directory; its subdirectories are appended to the worklist and its
matching files to `found`. -/
def scanLoop (ext : String) (todo : List (String × List FS)) (found : List String) :
    List String :=
  match h : todo.getLast? with
  | none => found
  | some d =>
    scanLoop ext (todo.dropLast ++ (scanOne d.1 ext d.2).1)
      (found ++ (scanOne d.1 ext d.2).2)
termination_by todoMeasure todo
decreasing_by
  have hs : ∀ (p' e' : String) (cs : List FS),
      todoMeasure (scanOne p' e' cs).1 ≤ fsSizeList cs := by
    intro p' e' cs
    induction cs with
    | nil => simp [scanOne, todoMeasure]
    | cons c rest ih =>
      cases c with
      | file n =>
        simp only [scanOne, fsSizeList, fsSize] at ih ⊢
        split <;> (try dsimp only) <;> omega
      | dir n cs' =>
        simp only [scanOne, todoMeasure, List.map_cons, List.sum_cons, fsSizeList, fsSize]
          at ih ⊢
        omega
  have hm : ∀ (l : List (String × List FS)) (e : String × List FS),
      l.getLast? = some e →
      todoMeasure l = todoMeasure l.dropLast + (1 + fsSizeList e.2) := by
    intro l
    induction l with
    | nil => intro e he; simp at he
    | cons t ts ih =>
      intro e he
      cases ts with
      | nil =>
        simp [List.getLast?] at he
        subst he
        simp [todoMeasure]
      | cons t' ts' =>
        rw [List.getLast?_cons_cons] at he
        have := ih e he
        simp only [List.dropLast_cons₂, todoMeasure, List.map_cons, List.sum_cons] at *
        omega
  have h1 := hm todo d h
  have h2 := hs d.1 ext d.2
  have h3 : todoMeasure (todo.dropLast ++ (scanOne d.1 ext d.2).1)
      = todoMeasure todo.dropLast + todoMeasure (scanOne d.1 ext d.2).1 := by
    simp [todoMeasure]
  omega

/-- The discovery stage on the given root directories (each a path with its
listing): `found` for `analyze(directory, ext, ...)`. -/
def discover (ext : String) (roots : List (String × List FS)) : List String :=
  scanLoop ext roots []

/-- The image path the script computes for a record (line 53), when the
record's `imagePath` field is a string. -/
def recImagePath (entry : String) (d : Json) : Option String :=
  match d.getField "imagePath" with
  | some (.str s) => some (pyJoin (dirname entry) s)
  | _ => none

/-- Whether a record takes the metadata (EXIF) branch: its image path ends
with the EXIF extension and its image carries a user comment (lines 60-62). -/
def takesExifPath (env : Env) (exifExt : String) (entry : String) (d : Json) : Bool :=
  match recImagePath entry d with
  | some ip => pyEndsWith ip exifExt && (env.image ip).userComment.isSome
  | none => false

/-- The value the `ocr_text_map` variable holds after a list of records has
been processed, starting from `st`: the map built from the most recently
processed fallback-branch record's image, or `st` when there is none. -/
def lastFallbackMap (env : Env) (exifExt : String) :
    List (String × Json) → Option (List (ℕ × Point)) → Option (List (ℕ × Point))
  | [], st => st
  | (p, d) :: rest, st =>
    lastFallbackMap env exifExt rest
      (if takesExifPath env exifExt p d then st
       else
         match recImagePath p d with
         | some ip => some (buildOcrMap (env.image ip).ocr).1
         | none => st)

/-- The pipeline's event trace alone (for the temporal claims). -/
def pipelineEvents (env : Env) (exifExt : String) (geom : Geom)
    (files : List (String × Except PyErr Json)) (disk : String → Json) :
    Except PyErr (List Event) :=
  (runPipeline env exifExt geom files disk).map (fun r => r.2.2.1)

/-- A constant stand-in for the black-box geometry library, used to evaluate
concrete runs: every polygon has area 2 and centroid (0, 0). -/
def constGeom : Geom := ⟨fun _ => 2, fun _ => (0, 0)⟩

/-- An environment whose every image has no metadata and no OCR text. -/
def plainEnv : Env := ⟨fun _ => ⟨none, 10, 10, []⟩⟩

/-- A minimal annotation record: an image reference (not EXIF-bearing under
the default `.jpg` extension) and no shapes. -/
def emptyRec : Json := .obj [("imagePath", .str "img.png"), ("shapes", .arr [])]

/-- An empty disk to run the pipeline on. -/
def emptyDisk : String → Json := fun _ => .null

/-- A concrete user-comment JSON with the two expected keys. -/
def ucFixture : Json := .obj [("effectivePixelSize", .num 2), ("objectiveMag", .num 10)]

/-- An environment whose every image carries `ucFixture` as user comment. -/
def exifEnv : Env := ⟨fun _ => ⟨some ucFixture, 10, 10, []⟩⟩

/-- A record referencing a `.jpg` image and holding one shape. -/
def exifRec : Json :=
  .obj [("imagePath", .str "scan.jpg"), ("shapes", .arr [.obj [("points", .arr [])]])]

/-! ## Lemmas about the JSON model -/

theorem lookupKV_setKV_self (kvs : List (String × Json)) (k : String) (v : Json) :
    lookupKV (setKV kvs k v) k = some v := by
  induction kvs with
  | nil => simp [setKV, lookupKV]
  | cons kv rest ih =>
    by_cases h : kv.1 = k
    · simp [setKV, lookupKV, h]
    · simp [setKV, lookupKV, h, ih]

theorem lookupKV_setKV_ne (kvs : List (String × Json)) (k k' : String) (v : Json)
    (h : k' ≠ k) : lookupKV (setKV kvs k v) k' = lookupKV kvs k' := by
  induction kvs with
  | nil => simp [setKV, lookupKV, Ne.symm h]
  | cons kv rest ih =>
    by_cases h2 : kv.1 = k
    · subst h2
      simp [setKV, lookupKV, Ne.symm h]
    · simp [setKV, lookupKV, h2, ih]

theorem getField_setField_self (kvs : List (String × Json)) (k : String) (v : Json) :
    ((Json.obj kvs).setField k v).getField k = some v := by
  simp [Json.setField, Json.getField, lookupKV_setKV_self]

theorem getField_setField_ne (j : Json) (k k' : String) (v : Json) (h : k' ≠ k) :
    (j.setField k v).getField k' = j.getField k' := by
  cases j <;> simp [Json.setField, Json.getField]
  exact lookupKV_setKV_ne _ k k' v h

theorem getFieldE_ok_iff {j v : Json} {k : String} :
    j.getFieldE k = .ok v ↔ j.getField k = some v := by
  cases j <;> simp [Json.getFieldE, Json.getField]
  cases h : lookupKV _ k <;> simp [h]

theorem getFieldE_ok_obj {j v : Json} {k : String} (h : j.getFieldE k = .ok v) :
    ∃ kvs, j = .obj kvs := by
  cases j <;> simp [Json.getFieldE] at h <;> exact ⟨_, rfl⟩

/-! ## Characterization of per-shape processing (lines 109-133) -/

theorem processShape_ok {geom : Geom} {ctx : ScaleCtx} {mapSt : Option (List (ℕ × Point))}
    {s s' : Json} (h : processShape geom ctx mapSt s = .ok s') :
    ∃ pts magQ ocrMap, s.getFieldE "points" = .ok pts ∧ ctx.mag.asNum = .ok magQ ∧
      magQ ≠ 0 ∧ mapSt = some ocrMap ∧
      s' = (s.setField "label"
          (.str (labelOf ctx (closestMarker ocrMap (geom.polyCentroid pts))
            (geom.polyArea pts * ctx.pixSize / magQ)))).setField "area"
          (.num (geom.polyArea pts * ctx.pixSize / magQ)) := by
  unfold processShape at h
  cases h1 : s.getFieldE "points" with
  | error e => rw [h1] at h; exact Except.noConfusion h
  | ok pts =>
    rw [h1] at h
    dsimp only at h
    cases h2 : ctx.mag.asNum with
    | error e => rw [h2] at h; exact Except.noConfusion h
    | ok magQ =>
      rw [h2] at h
      dsimp only at h
      by_cases h3 : magQ = 0
      · rw [if_pos h3] at h; exact Except.noConfusion h
      · rw [if_neg h3] at h
        cases mapSt with
        | none => exact Except.noConfusion h
        | some m =>
          refine ⟨pts, magQ, m, rfl, rfl, h3, rfl, ?_⟩
          cases h
          rfl

/-- C1: for every shape in a processed record, the computed and persisted
area equals the polygon's geometric area multiplied by the pixel-size scale
and divided by the magnification.  Part 1: the stored `area` field is exactly
`polyArea × pixSize ÷ mag`.  Part 2: in the metadata branch the scale context
is `(effectivePixelSize × 1e-6, objectiveMag, exif_found)` read from the
user-comment JSON.  Part 3: in the fallback branch the scale context is
`(1, 1, no-exif)`.  Part 4: with the fallback context the persisted area
equals the raw geometric area. -/
theorem area_formula_correct :
    (∀ (geom : Geom) (ctx : ScaleCtx) (mapSt : Option (List (ℕ × Point))) (s s' : Json),
      processShape geom ctx mapSt s = .ok s' →
      ∃ pts magQ, s.getFieldE "points" = .ok pts ∧ ctx.mag.asNum = .ok magQ ∧
        s'.getField "area" = some (.num (geom.polyArea pts * ctx.pixSize / magQ)))
  ∧ (∀ (img : ImageData) (ip entry ext : String) (uc : Json) (eps : ℚ) (om : Json),
      pyEndsWith ip ext = true → img.userComment = some uc →
      uc.getFieldE "effectivePixelSize" = .ok (.num eps) →
      uc.getFieldE "objectiveMag" = .ok om →
      resolveScale img ip entry ext = .ok (⟨eps / 10 ^ 6, om, true⟩, none, []))
  ∧ (∀ (img : ImageData) (ip entry ext : String),
      pyEndsWith ip ext = false ∨ img.userComment = none →
      ∃ upd msgs, resolveScale img ip entry ext = .ok (⟨1, .num 1, false⟩, upd, msgs))
  ∧ (∀ (geom : Geom) (mapSt : Option (List (ℕ × Point))) (s s' : Json),
      processShape geom ⟨1, .num 1, false⟩ mapSt s = .ok s' →
      ∃ pts, s.getFieldE "points" = .ok pts ∧
        s'.getField "area" = some (.num (geom.polyArea pts))) := by
  refine ⟨?_, ?_, ?_, ?_⟩
  · intro geom ctx mapSt s s' h
    obtain ⟨pts, magQ, m, h1, h2, h3, h4, h5⟩ := processShape_ok h
    obtain ⟨kvs, rfl⟩ := getFieldE_ok_obj h1
    refine ⟨pts, magQ, h1, h2, ?_⟩
    subst h5
    simp only [Json.setField]
    exact getField_setField_self _ "area" _
  · intro img ip entry ext uc eps om h1 h2 h3 h4
    simp [resolveScale, h1, h2, h3, h4, Json.asNum]
  · intro img ip entry ext h
    rcases h with h | h
    · simp only [resolveScale, h, Bool.false_eq_true, if_false]
      exact ⟨_, _, rfl⟩
    · by_cases h1 : pyEndsWith ip ext = true
      · simp only [resolveScale, h1, if_true, h]
        exact ⟨_, _, rfl⟩
      · rw [Bool.not_eq_true] at h1
        simp only [resolveScale, h1, Bool.false_eq_true, if_false]
        exact ⟨_, _, rfl⟩
  · intro geom mapSt s s' h
    obtain ⟨pts, magQ, m, h1, h2, h3, h4, h5⟩ := processShape_ok h
    obtain ⟨kvs, rfl⟩ := getFieldE_ok_obj h1
    have hm : magQ = 1 := by
      simpa [Json.asNum] using h2.symm
    refine ⟨pts, h1, ?_⟩
    subst h5
    simp only [Json.setField, hm]
    rw [show geom.polyArea pts * (⟨1, .num 1, false⟩ : ScaleCtx).pixSize / 1
        = geom.polyArea pts by simp]
    exact getField_setField_self _ "area" _

/-- Witness for C1: a concrete fallback-branch shape whose persisted area is
exactly the raw geometric area. -/
theorem area_formula_correct_witness :
    ∃ s' pts,
      processShape constGeom ⟨1, Json.num 1, false⟩ (some [])
        (Json.obj [("points", Json.arr [])]) = .ok s' ∧
      (Json.obj [("points", Json.arr [])]).getFieldE "points" = .ok pts ∧
      s'.getField "area" = some (.num (constGeom.polyArea pts)) := by
  have hs : ∃ s', processShape constGeom ⟨1, Json.num 1, false⟩ (some [])
      (Json.obj [("points", Json.arr [])]) = .ok s' := by
    simp only [processShape, Json.getFieldE, lookupKV, Json.asNum, one_ne_zero,
      if_false, if_pos]
    exact ⟨_, rfl⟩
  obtain ⟨s', h⟩ := hs
  obtain ⟨pts, hpts, harea⟩ := area_formula_correct.2.2.2 constGeom (some []) _ s' h
  exact ⟨s', pts, h, hpts, harea⟩

/-- C9: a referenced image whose filename matches the EXIF-bearing extension
but which carries no usable user-comment metadata gets a warning (the first
message printed for it) and the pixel-based fallback (scale 1, magnification
1, OCR run), not an abort: the branch returns normally. -/
theorem exif_missing_falls_back (img : ImageData) (ip entry ext : String)
    (h1 : pyEndsWith ip ext = true) (h2 : img.userComment = none) :
    resolveScale img ip entry ext
      = .ok (⟨1, .num 1, false⟩, some (buildOcrMap img.ocr).1,
        ("Warning: " ++ ip ++ " referenced from " ++ entry ++ " has no valid EXIF data")
          :: ("Using pixel dimensions for " ++ ip ++ ": " ++ toString img.width ++ "x"
              ++ toString img.height ++ " pixels")
          :: (buildOcrMap img.ocr).2) := by
  simp [resolveScale, h1, h2]

/-- Witness for C9: a concrete `.jpg` image with no user comment. -/
theorem exif_missing_falls_back_witness :
    resolveScale ⟨none, 10, 10, []⟩ "a.jpg" "a.json" ".jpg"
      = .ok (⟨1, .num 1, false⟩, some (buildOcrMap (⟨none, 10, 10, []⟩ : ImageData).ocr).1,
        ("Warning: " ++ "a.jpg" ++ " referenced from " ++ "a.json" ++ " has no valid EXIF data")
          :: ("Using pixel dimensions for " ++ "a.jpg" ++ ": "
              ++ toString (⟨none, 10, 10, []⟩ : ImageData).width ++ "x"
              ++ toString (⟨none, 10, 10, []⟩ : ImageData).height ++ " pixels")
          :: (buildOcrMap (⟨none, 10, 10, []⟩ : ImageData).ocr).2) :=
  exif_missing_falls_back ⟨none, 10, 10, []⟩ "a.jpg" "a.json" ".jpg" (by decide) rfl

/-! ## Characterization of the nearest-marker loop (lines 113-123) -/

theorem closestLoop_char (c : Point) :
    ∀ (l : List (ℕ × Point)) (n0 : ℕ) (d0 : ℚ),
      (closestLoop c l (some n0, some d0) = (some n0, some d0) ∧
        ∀ nd ∈ l, d0 ≤ dist2 nd.2 c)
      ∨ (∃ i, ∃ hi : i < l.length,
          closestLoop c l (some n0, some d0)
            = (some (l.get ⟨i, hi⟩).1, some (dist2 (l.get ⟨i, hi⟩).2 c)) ∧
          dist2 (l.get ⟨i, hi⟩).2 c < d0 ∧
          (∀ j, ∀ hj : j < l.length,
            dist2 (l.get ⟨i, hi⟩).2 c ≤ dist2 (l.get ⟨j, hj⟩).2 c) ∧
          (∀ j, ∀ hj : j < i, dist2 (l.get ⟨i, hi⟩).2 c
              < dist2 (l.get ⟨j, Nat.lt_trans hj hi⟩).2 c)) := by
  intro l
  induction l with
  | nil => intro n0 d0; left; exact ⟨rfl, by simp⟩
  | cons nd rest ih =>
    intro n0 d0
    obtain ⟨n, pt⟩ := nd
    by_cases hd : dist2 pt c < d0
    · have hstep : closestLoop c ((n, pt) :: rest) (some n0, some d0)
          = closestLoop c rest (some n, some (dist2 pt c)) := by
        simp [closestLoop, hd]
      rcases ih n (dist2 pt c) with ⟨heq, hall⟩ | ⟨i, hi, heq, hlt, hmin, hbefore⟩
      · right
        refine ⟨0, by simp, ?_, ?_, ?_, ?_⟩
        · rw [hstep, heq]; simp
        · simpa using hd
        · intro j hj
          cases j with
          | zero => simp
          | succ j' =>
            simp only [List.get]
            simpa using hall _ (List.get_mem rest j' (by simpa using hj))
        · intro j hj; omega
      · right
        refine ⟨i + 1, by simpa using Nat.succ_lt_succ hi, ?_, ?_, ?_, ?_⟩
        · rw [hstep, heq]; simp
        · simp only [List.get]
          exact lt_trans hlt hd
        · intro j hj
          cases j with
          | zero => simpa using le_of_lt hlt
          | succ j' => simpa using hmin j' (by simpa using hj)
        · intro j hj
          cases j with
          | zero => simpa using hlt
          | succ j' => simpa using hbefore j' (by omega)
    · have hstep : closestLoop c ((n, pt) :: rest) (some n0, some d0)
          = closestLoop c rest (some n0, some d0) := by
        simp [closestLoop, hd]
      rcases ih n0 d0 with ⟨heq, hall⟩ | ⟨i, hi, heq, hlt, hmin, hbefore⟩
      · left
        refine ⟨by rw [hstep, heq], ?_⟩
        intro nd' hnd'
        rcases List.mem_cons.mp hnd' with h | h
        · subst h; exact not_lt.mp hd
        · exact hall nd' h
      · right
        refine ⟨i + 1, by simpa using Nat.succ_lt_succ hi, ?_, ?_, ?_, ?_⟩
        · rw [hstep, heq]; simp
        · simp only [List.get]; exact hlt
        · intro j hj
          cases j with
          | zero => simpa using le_of_lt (lt_of_lt_of_le hlt (not_lt.mp hd))
          | succ j' => simpa using hmin j' (by simpa using hj)
        · intro j hj
          cases j with
          | zero => simpa using lt_of_lt_of_le hlt (not_lt.mp hd)
          | succ j' => simpa using hbefore j' (by omega)

theorem closestMarker_char (ocrMap : List (ℕ × Point)) (c : Point) (hne : ocrMap ≠ []) :
    ∃ i, ∃ hi : i < ocrMap.length,
      closestMarker ocrMap c = some (ocrMap.get ⟨i, hi⟩).1 ∧
      (∀ j, ∀ hj : j < ocrMap.length,
        dist2 (ocrMap.get ⟨i, hi⟩).2 c ≤ dist2 (ocrMap.get ⟨j, hj⟩).2 c) ∧
      (∀ j, ∀ hj : j < i, dist2 (ocrMap.get ⟨i, hi⟩).2 c
          < dist2 (ocrMap.get ⟨j, Nat.lt_trans hj hi⟩).2 c) := by
  cases ocrMap with
  | nil => exact absurd rfl hne
  | cons nd rest =>
    obtain ⟨n, pt⟩ := nd
    have hstep : closestMarker ((n, pt) :: rest) c
        = (closestLoop c rest (some n, some (dist2 pt c))).1 := by
      simp [closestMarker, closestLoop]
    rcases closestLoop_char c rest n (dist2 pt c) with ⟨heq, hall⟩ |
      ⟨i, hi, heq, hlt, hmin, hbefore⟩
    · refine ⟨0, by simp, ?_, ?_, ?_⟩
      · rw [hstep, heq]; simp
      · intro j hj
        cases j with
        | zero => simp
        | succ j' =>
          simp only [List.get]
          simpa using hall _ (List.get_mem rest j' (by simpa using hj))
      · intro j hj; omega
    · refine ⟨i + 1, by simpa using Nat.succ_lt_succ hi, ?_, ?_, ?_⟩
      · rw [hstep, heq]; simp
      · intro j hj
        cases j with
        | zero => simpa using le_of_lt hlt
        | succ j' => simpa using hmin j' (by simpa using hj)
      · intro j hj
        cases j with
        | zero => simpa using hlt
        | succ j' => simpa using hbefore j' (by omega)

theorem closestMarker_mem {ocrMap : List (ℕ × Point)} {c : Point} {n : ℕ}
    (h : closestMarker ocrMap c = some n) : ∃ pt, (n, pt) ∈ ocrMap := by
  by_cases hne : ocrMap = []
  · subst hne; simp [closestMarker, closestLoop] at h
  · obtain ⟨i, hi, heq, -, -⟩ := closestMarker_char ocrMap c hne
    rw [heq] at h
    obtain hn := Option.some_injective _ h
    refine ⟨(ocrMap.get ⟨i, hi⟩).2, ?_⟩
    rw [← hn]
    simpa using List.get_mem ocrMap i hi

theorem closestMarker_isSome_iff (ocrMap : List (ℕ × Point)) (c : Point) :
    (closestMarker ocrMap c).isSome ↔ ocrMap ≠ [] := by
  constructor
  · intro h hnil
    subst hnil
    simp [closestMarker, closestLoop] at h
  · intro hne
    obtain ⟨i, hi, heq, -, -⟩ := closestMarker_char ocrMap c hne
    rw [heq]
    rfl

theorem dist2_nonneg (p c : Point) : 0 ≤ dist2 p c := by
  unfold dist2
  positivity

/-- C2: for every shape with at least one detected marker, the marker the
loop attaches is one at minimum Euclidean centroid distance among all
entries of the marker map, the tie-break being the first strict minimum in
iteration order (every earlier entry is at strictly greater distance); there
is no distance threshold — a marker is attached whenever the map is
nonempty. -/
theorem nearest_marker_attached (ocrMap : List (ℕ × Point)) (c : Point)
    (hne : ocrMap ≠ []) :
    ∃ i, ∃ hi : i < ocrMap.length,
      closestMarker ocrMap c = some (ocrMap.get ⟨i, hi⟩).1 ∧
      (∀ j, ∀ hj : j < ocrMap.length,
        euclidDist (ocrMap.get ⟨i, hi⟩).2 c ≤ euclidDist (ocrMap.get ⟨j, hj⟩).2 c) ∧
      (∀ j, ∀ hj : j < i, euclidDist (ocrMap.get ⟨i, hi⟩).2 c
          < euclidDist (ocrMap.get ⟨j, Nat.lt_trans hj hi⟩).2 c) := by
  obtain ⟨i, hi, heq, hmin, hbefore⟩ := closestMarker_char ocrMap c hne
  refine ⟨i, hi, heq, ?_, ?_⟩
  · intro j hj
    exact Real.sqrt_le_sqrt (by exact_mod_cast hmin j hj)
  · intro j hj
    exact Real.sqrt_lt_sqrt (by exact_mod_cast dist2_nonneg _ c) (by exact_mod_cast hbefore j hj)

/-- Witness for C2: two markers, the first strictly nearer. -/
theorem nearest_marker_attached_witness :
    ∃ i, ∃ hi : i < ([((1 : ℕ), ((0 : ℚ), (0 : ℚ))), (2, (3, 3))]).length,
      closestMarker [((1 : ℕ), ((0 : ℚ), (0 : ℚ))), (2, (3, 3))] (0, 0)
        = some (([((1 : ℕ), ((0 : ℚ), (0 : ℚ))), (2, (3, 3))]).get ⟨i, hi⟩).1 ∧
      (∀ j, ∀ hj : j < ([((1 : ℕ), ((0 : ℚ), (0 : ℚ))), (2, (3, 3))]).length,
        euclidDist (([((1 : ℕ), ((0 : ℚ), (0 : ℚ))), (2, (3, 3))]).get ⟨i, hi⟩).2 (0, 0)
          ≤ euclidDist (([((1 : ℕ), ((0 : ℚ), (0 : ℚ))), (2, (3, 3))]).get ⟨j, hj⟩).2 (0, 0)) ∧
      (∀ j, ∀ hj : j < i,
        euclidDist (([((1 : ℕ), ((0 : ℚ), (0 : ℚ))), (2, (3, 3))]).get ⟨i, hi⟩).2 (0, 0)
          < euclidDist (([((1 : ℕ), ((0 : ℚ), (0 : ℚ))), (2, (3, 3))]).get
              ⟨j, Nat.lt_trans hj hi⟩).2 (0, 0)) :=
  nearest_marker_attached [((1 : ℕ), ((0 : ℚ), (0 : ℚ))), (2, (3, 3))] (0, 0)
    (List.cons_ne_nil _ _)

/-! ## The label format (C4) -/

theorem format2_two : format2 2 = "2.00" := by
  have h1 : ((2 : ℚ) * 100) = 200 := by norm_num
  have hf : (⌊(200 : ℚ)⌋ : ℤ) = 200 := by norm_num
  have h2 : roundHalfEven 200 = 200 := by
    dsimp only [roundHalfEven]
    rw [hf]
    rw [if_pos (by norm_num)]
  dsimp only [format2]
  rw [h1, h2]
  decide

/-- C4 fails as stated: the code prepends "Area: " to the area text
(line 126), so the label is never exactly "{area:.2f} pixels²".  Concretely,
a fallback-branch shape of geometric area 2 is persisted with label
"Area: 2.00 pixels²", which differs from the claimed "2.00 pixels²". -/
theorem label_format_counterexample :
    ∃ s', processShape constGeom ⟨1, Json.num 1, false⟩ (some [])
        (Json.obj [("points", Json.arr [])]) = .ok s' ∧
      s'.getField "label" = some (.str "Area: 2.00 pixels²") ∧
      "Area: 2.00 pixels²" ≠ "2.00 pixels²" := by
  have hlab : labelOf ⟨1, Json.num 1, false⟩
      (closestMarker [] (constGeom.polyCentroid (Json.arr [])))
      (constGeom.polyArea (Json.arr []) * 1 / 1)
      = "Area: 2.00 pixels²" := by
    rw [show constGeom.polyArea (Json.arr []) * (1 : ℚ) / 1 = 2 by norm_num [constGeom]]
    rw [show closestMarker [] (constGeom.polyCentroid (Json.arr [])) = none from rfl]
    simp [labelOf, areaLabelOf, format2_two]
  refine ⟨(((Json.obj [("points", Json.arr [])]).setField "label"
      (.str (labelOf ⟨1, Json.num 1, false⟩
        (closestMarker [] (constGeom.polyCentroid (Json.arr [])))
        (constGeom.polyArea (Json.arr []) * 1 / 1)))).setField "area"
      (.num (constGeom.polyArea (Json.arr []) * 1 / 1))), ?_, ?_, by decide⟩
  · simp [processShape, Json.getFieldE, lookupKV, Json.asNum, one_ne_zero]
  · rw [getField_setField_ne _ "area" "label" _ (by decide)]
    rw [hlab]
    exact getField_setField_self _ "label" _

/-- C4 (amended, as the counterexample forces): the persisted label is
exactly "Area: {area:.2f} mm²" when the metadata-based scale applied and
exactly "Area: {area:.2f} pixels²" otherwise, prefixed with "{marker} - "
exactly when a marker was matched (which happens exactly when the marker map
is nonempty), and contains no other text. -/
theorem label_format (geom : Geom) (ctx : ScaleCtx) (ocrMap : List (ℕ × Point)) (s s' : Json)
    (hkeys : ∀ kv ∈ ocrMap, 1 ≤ kv.1)
    (h : processShape geom ctx (some ocrMap) s = .ok s') :
    ∃ pts magQ, s.getFieldE "points" = .ok pts ∧ ctx.mag.asNum = .ok magQ ∧
      s'.getField "label" = some (.str
        (match closestMarker ocrMap (geom.polyCentroid pts) with
         | some n => toString n ++ " - "
             ++ areaLabelOf ctx (geom.polyArea pts * ctx.pixSize / magQ)
         | none => areaLabelOf ctx (geom.polyArea pts * ctx.pixSize / magQ))) ∧
      ((closestMarker ocrMap (geom.polyCentroid pts)).isSome ↔ ocrMap ≠ []) := by
  obtain ⟨pts, magQ, m, h1, h2, h3, h4, h5⟩ := processShape_ok h
  have hmm : m = ocrMap := by
    injection h4.symm
  subst hmm
  obtain ⟨kvs, rfl⟩ := getFieldE_ok_obj h1
  refine ⟨pts, magQ, h1, h2, ?_, closestMarker_isSome_iff _ _⟩
  subst h5
  rw [getField_setField_ne _ "area" "label" _ (by decide)]
  rw [show ((Json.obj kvs).setField "label" _) = Json.obj (setKV kvs "label" _) from rfl]
  rw [show (Json.obj (setKV kvs "label" _)).getField "label"
      = lookupKV (setKV kvs "label" _) "label" from rfl]
  rw [lookupKV_setKV_self]
  congr 1
  unfold labelOf
  cases hc : closestMarker m (geom.polyCentroid pts) with
  | none => simp only [hc]
  | some n =>
    simp only [hc]
    obtain ⟨pt, hmem⟩ := closestMarker_mem hc
    have hn : 1 ≤ n := hkeys (n, pt) hmem
    rw [if_neg (by omega)]

/-- Witness for C4 (amended): a fallback-branch shape with one marker "7" in
the map; the label carries the "7 - " prefix and the "Area: ... pixels²"
body. -/
theorem label_format_witness :
    ∃ s' pts magQ,
      processShape constGeom ⟨1, Json.num 1, false⟩ (some [((7 : ℕ), ((100 : ℚ), (100 : ℚ)))])
        (Json.obj [("points", Json.arr [])]) = .ok s' ∧
      (Json.obj [("points", Json.arr [])]).getFieldE "points" = .ok pts ∧
      (Json.num 1).asNum = .ok magQ ∧
      s'.getField "label" = some (.str
        (match closestMarker [((7 : ℕ), ((100 : ℚ), (100 : ℚ)))] (constGeom.polyCentroid pts) with
         | some n => toString n ++ " - "
             ++ areaLabelOf ⟨1, Json.num 1, false⟩
                (constGeom.polyArea pts * (⟨1, Json.num 1, false⟩ : ScaleCtx).pixSize / magQ)
         | none => areaLabelOf ⟨1, Json.num 1, false⟩
             (constGeom.polyArea pts * (⟨1, Json.num 1, false⟩ : ScaleCtx).pixSize / magQ))) ∧
      ((closestMarker [((7 : ℕ), ((100 : ℚ), (100 : ℚ)))] (constGeom.polyCentroid pts)).isSome
        ↔ [((7 : ℕ), ((100 : ℚ), (100 : ℚ)))] ≠ []) := by
  have hs : ∃ s', processShape constGeom ⟨1, Json.num 1, false⟩
      (some [((7 : ℕ), ((100 : ℚ), (100 : ℚ)))])
      (Json.obj [("points", Json.arr [])]) = .ok s' := by
    simp only [processShape, Json.getFieldE, lookupKV, Json.asNum, one_ne_zero,
      if_false, if_pos]
    exact ⟨_, rfl⟩
  obtain ⟨s', h⟩ := hs
  obtain ⟨pts, magQ, h1, h2, h3, h4⟩ :=
    label_format constGeom ⟨1, Json.num 1, false⟩ [((7 : ℕ), ((100 : ℚ), (100 : ℚ)))] _ s'
      (by intro kv hkv; simp at hkv; subst hkv; norm_num) h
  exact ⟨s', pts, magQ, h, h1, h2, h3, h4⟩

/-! ## The OCR marker map (lines 83-106) -/

theorem matchMarker_range {t : String} {n : ℕ} (h : matchMarker t = some n) :
    1 ≤ n ∧ n ≤ 12 := by
  obtain ⟨i, hi, hf⟩ := List.exists_of_findSome?_eq_some h
  rw [List.mem_range] at hi
  split at hf
  · obtain rfl := Option.some_injective _ hf
    omega
  · exact Option.noConfusion hf

theorem lookupMarker_append (l : List (ℕ × Point)) (k n : ℕ) (pt : Point) :
    lookupMarker (l ++ [(k, pt)]) n
      = match lookupMarker l n with
        | some pt' => some pt'
        | none => if k = n then some pt else none := by
  induction l with
  | nil => simp [lookupMarker]
  | cons kv rest ih =>
    by_cases h : kv.1 = n <;> simp [lookupMarker, h, ih]

theorem lookupMarker_isSome_any (l : List (ℕ × Point)) (n : ℕ) :
    (lookupMarker l n).isSome = l.any (fun kv => kv.1 == n) := by
  induction l with
  | nil => rfl
  | cons kv rest ih =>
    by_cases h : kv.1 = n <;> simp [lookupMarker, h, ih]

theorem lookupMarker_isSome_iff_mem (l : List (ℕ × Point)) (n : ℕ) :
    (lookupMarker l n).isSome ↔ ∃ pt, (n, pt) ∈ l := by
  induction l with
  | nil => simp [lookupMarker]
  | cons kv rest ih =>
    by_cases h : kv.1 = n
    · obtain ⟨a, b⟩ := kv
      dsimp at h
      subst h
      simp [lookupMarker]
    · obtain ⟨a, b⟩ := kv
      dsimp at h
      simp only [lookupMarker, if_neg h, ih]
      constructor
      · rintro ⟨pt, hpt⟩
        exact ⟨pt, List.mem_cons_of_mem _ hpt⟩
      · rintro ⟨pt, hpt⟩
        rcases List.mem_cons.mp hpt with heq | hmem
        · exact absurd (congrArg Prod.fst heq).symm h
        · exact ⟨pt, hmem⟩

theorem buildOcrMapAux_msgs_mono (results : List Detection) :
    ∀ (acc : List (ℕ × Point)) (msgs : List String) (msg : String),
      msg ∈ msgs → msg ∈ (buildOcrMapAux results acc msgs).2 := by
  induction results with
  | nil => intro acc msgs msg h; exact h
  | cons det rest ih =>
    intro acc msgs msg h
    unfold buildOcrMapAux
    cases hm : matchMarker det.text with
    | some k =>
      by_cases ha : acc.any (fun kv => kv.1 == k)
      · simp only [ha, if_true]
        exact ih _ _ _ (List.mem_append_left _ h)
      · simp only [ha, if_false, Bool.false_eq_true]
        exact ih _ _ _ h
    | none => exact ih _ _ _ (List.mem_append_left _ h)

theorem buildOcrMapAux_lookup (n : ℕ) :
    ∀ (results : List Detection) (acc : List (ℕ × Point)) (msgs : List String),
      lookupMarker (buildOcrMapAux results acc msgs).1 n
        = match lookupMarker acc n with
          | some pt => some pt
          | none => (results.find? (fun det => matchMarker det.text == some n)).map bboxCenter := by
  intro results
  induction results with
  | nil =>
    intro acc msgs
    cases h : lookupMarker acc n <;> simp [buildOcrMapAux, h]
  | cons det rest ih =>
    intro acc msgs
    unfold buildOcrMapAux
    cases hm : matchMarker det.text with
    | some k =>
      by_cases ha : acc.any (fun kv => kv.1 == k)
      · simp only [ha, if_true]
        rw [ih]
        by_cases hkn : k = n
        · subst hkn
          have hsome : (lookupMarker acc k).isSome := by
            rw [lookupMarker_isSome_any]; exact ha
          obtain ⟨pt, hpt⟩ := Option.isSome_iff_exists.mp hsome
          simp [hpt]
        · rw [List.find?_cons_of_neg]
          simp [hm, hkn]
      · simp only [ha, if_false, Bool.false_eq_true]
        rw [ih]
        by_cases hkn : k = n
        · subst hkn
          have hnone : lookupMarker acc k = none := by
            cases h : lookupMarker acc k with
            | none => rfl
            | some pt =>
              exfalso
              have : (lookupMarker acc k).isSome := by rw [h]; rfl
              rw [lookupMarker_isSome_any] at this
              exact ha this
          rw [lookupMarker_append, hnone]
          simp only [hnone]
          rw [List.find?_cons_of_pos]
          · simp
          · simp [hm]
        · rw [lookupMarker_append]
          rw [List.find?_cons_of_neg]
          · cases h : lookupMarker acc n <;> simp [h, hkn]
          · simp [hm, hkn]
    | none =>
      rw [ih]
      rw [List.find?_cons_of_neg]
      simp [hm]

theorem buildOcrMapAux_dup (n : ℕ) :
    ∀ (l1 : List Detection) (det : Detection) (l2 : List Detection)
      (acc : List (ℕ × Point)) (msgs : List String),
      matchMarker det.text = some n →
      ((∃ det' ∈ l1, matchMarker det'.text = some n) ∨
        acc.any (fun kv => kv.1 == n) = true) →
      ("Duplicate detected and skipped: " ++ toString n)
        ∈ (buildOcrMapAux (l1 ++ det :: l2) acc msgs).2 := by
  intro l1
  induction l1 with
  | nil =>
    intro det l2 acc msgs hdet hprev
    have ha : acc.any (fun kv => kv.1 == n) = true := by
      rcases hprev with ⟨det', hm, -⟩ | h
      · exact absurd hm (List.not_mem_nil det')
      · exact h
    simp only [List.nil_append]
    unfold buildOcrMapAux
    rw [hdet]
    simp only [ha, if_true]
    exact buildOcrMapAux_msgs_mono _ _ _ _ (List.mem_append_right _ (List.mem_singleton.mpr rfl))
  | cons d' rest1 ih =>
    intro det l2 acc msgs hdet hprev
    simp only [List.cons_append]
    unfold buildOcrMapAux
    cases hm : matchMarker d'.text with
    | some k =>
      by_cases ha : acc.any (fun kv => kv.1 == k)
      · simp only [ha, if_true]
        apply ih det l2 acc _ hdet
        rcases hprev with ⟨det', hmem, hdet'⟩ | h
        · rcases List.mem_cons.mp hmem with heq | hmem'
          · subst heq
            right
            rw [hdet'] at hm
            obtain rfl := Option.some_injective _ hm.symm
            exact ha
          · exact Or.inl ⟨det', hmem', hdet'⟩
        · exact Or.inr h
      · simp only [ha, if_false, Bool.false_eq_true]
        apply ih det l2 _ _ hdet
        rcases hprev with ⟨det', hmem, hdet'⟩ | h
        · rcases List.mem_cons.mp hmem with heq | hmem'
          · subst heq
            right
            rw [hdet'] at hm
            obtain rfl := Option.some_injective _ hm.symm
            simp [List.any_append]
          · exact Or.inl ⟨det', hmem', hdet'⟩
        · right
          rw [List.any_append]
          simp [h]
    | none =>
      apply ih det l2 acc _ hdet
      rcases hprev with ⟨det', hmem, hdet'⟩ | h
      · rcases List.mem_cons.mp hmem with heq | hmem'
        · subst heq
          rw [hdet'] at hm
          exact Option.noConfusion hm
        · exact Or.inl ⟨det', hmem', hdet'⟩
      · exact Or.inr h

theorem buildOcrMapAux_ignored (det : Detection) :
    ∀ (results : List Detection) (acc : List (ℕ × Point)) (msgs : List String),
      det ∈ results → matchMarker det.text = none →
      ("Ignored non-matching OCR result: " ++ det.text)
        ∈ (buildOcrMapAux results acc msgs).2 := by
  intro results
  induction results with
  | nil => intro acc msgs h; exact absurd h (List.not_mem_nil det)
  | cons d' rest ih =>
    intro acc msgs hmem hnone
    unfold buildOcrMapAux
    rcases List.mem_cons.mp hmem with heq | hmem'
    · subst heq
      rw [hnone]
      exact buildOcrMapAux_msgs_mono _ _ _ _
        (List.mem_append_right _ (List.mem_singleton.mpr rfl))
    · cases hm : matchMarker d'.text with
      | some k =>
        by_cases ha : acc.any (fun kv => kv.1 == k)
        · simp only [ha, if_true]
          exact ih _ _ hmem' hnone
        · simp only [ha, if_false, Bool.false_eq_true]
          exact ih _ _ hmem' hnone
      | none => exact ih _ _ hmem' hnone

/-- C6 fails as stated: Python's `$` also matches just before a trailing
newline, so the detection text "5\n" — which is not "one or two digits ...
no other characters" — passes `pattern.match` and produces a map entry for
5 (`int("5\n")` is 5). -/
theorem ocr_filter_counterexample :
    (∃ pt, ((5 : ℕ), pt) ∈ (buildOcrMap
        [⟨(0, 0), (2, 0), (2, 2), (0, 2), "5\n", 1⟩]).1) ∧
    strictMarkerText "5\n" = none := by
  constructor
  · refine ⟨bboxCenter ⟨(0, 0), (2, 0), (2, 2), (0, 2), "5\n", 1⟩, ?_⟩
    have h : (buildOcrMap [⟨(0, 0), (2, 0), (2, 2), (0, 2), "5\n", 1⟩]).1
        = [(5, bboxCenter ⟨(0, 0), (2, 0), (2, 2), (0, 2), "5\n", 1⟩)] := by rfl
    rw [h]
    exact List.mem_singleton.mpr rfl
  · rfl

/-- C6 (amended, as the counterexample forces): the marker map has an entry
for n iff n is 1..12 and some detection's text matches n under the source
regex's Python semantics — the digit string of n optionally followed by one
trailing newline (`matchMarker`); the stored center is the diagonal
bounding-box mean of the FIRST such detection (the `find?` equation), later
duplicates are discarded with a diagnostic, and non-matching texts contribute
nothing beyond a diagnostic. -/
theorem ocr_map_characterization (results : List Detection) :
    (∀ n, lookupMarker (buildOcrMap results).1 n
        = (results.find? (fun det => matchMarker det.text == some n)).map bboxCenter)
  ∧ (∀ n, (∃ pt, (n, pt) ∈ (buildOcrMap results).1)
      ↔ (1 ≤ n ∧ n ≤ 12 ∧ ∃ det ∈ results, matchMarker det.text = some n))
  ∧ (∀ (l1 : List Detection) (det : Detection) (l2 : List Detection) (n : ℕ),
      results = l1 ++ det :: l2 → matchMarker det.text = some n →
      (∃ det' ∈ l1, matchMarker det'.text = some n) →
      ("Duplicate detected and skipped: " ++ toString n) ∈ (buildOcrMap results).2)
  ∧ (∀ det ∈ results, matchMarker det.text = none →
      ("Ignored non-matching OCR result: " ++ det.text) ∈ (buildOcrMap results).2) := by
  refine ⟨?_, ?_, ?_, ?_⟩
  · intro n
    simpa [lookupMarker] using buildOcrMapAux_lookup n results [] []
  · intro n
    rw [← lookupMarker_isSome_iff_mem]
    have hl : lookupMarker (buildOcrMap results).1 n
        = (results.find? (fun det => matchMarker det.text == some n)).map bboxCenter := by
      simpa [lookupMarker] using buildOcrMapAux_lookup n results [] []
    rw [hl]
    constructor
    · intro hs
      have hfs : (results.find? (fun det => matchMarker det.text == some n)).isSome := by
        simpa using hs
      rw [List.find?_isSome] at hfs
      obtain ⟨det, hmem, hp⟩ := hfs
      have hdet : matchMarker det.text = some n := by simpa using hp
      obtain ⟨h1, h2⟩ := matchMarker_range hdet
      exact ⟨h1, h2, det, hmem, hdet⟩
    · rintro ⟨h1, h2, det, hmem, hdet⟩
      have hfs : (results.find? (fun det => matchMarker det.text == some n)).isSome :=
        List.find?_isSome.mpr ⟨det, hmem, by simp [hdet]⟩
      simpa using hfs
  · intro l1 det l2 n hres hdet hprev
    subst hres
    exact buildOcrMapAux_dup n l1 det l2 [] [] hdet (Or.inl hprev)
  · intro det hmem hnone
    exact buildOcrMapAux_ignored det results [] [] hmem hnone

/-- Witness for C6 (amended): two detections of "5"; the duplicate diagnostic
is emitted. -/
theorem ocr_map_characterization_witness :
    ("Duplicate detected and skipped: " ++ toString (5 : ℕ))
      ∈ (buildOcrMap [⟨(0, 0), (2, 0), (2, 2), (0, 2), "5", 1⟩,
          ⟨(1, 1), (3, 1), (3, 3), (1, 3), "5", 1⟩]).2 :=
  (ocr_map_characterization
      [⟨(0, 0), (2, 0), (2, 2), (0, 2), "5", 1⟩,
        ⟨(1, 1), (3, 1), (3, 3), (1, 3), "5", 1⟩]).2.2.1
    [⟨(0, 0), (2, 0), (2, 2), (0, 2), "5", 1⟩]
    ⟨(1, 1), (3, 1), (3, 3), (1, 3), "5", 1⟩ [] 5 rfl rfl
    ⟨⟨(0, 0), (2, 0), (2, 2), (0, 2), "5", 1⟩, List.mem_singleton.mpr rfl, rfl⟩

/-! ## Per-record processing and the write loop -/

theorem processShapes_ok {geom : Geom} {ctx : ScaleCtx} {mapSt : Option (List (ℕ × Point))} :
    ∀ {shapes shapes' : List Json}, processShapes geom ctx mapSt shapes = .ok shapes' →
      shapes'.length = shapes.length ∧
      ∀ i, ∀ hi : i < shapes.length, ∀ hi' : i < shapes'.length,
        processShape geom ctx mapSt (shapes.get ⟨i, hi⟩) = .ok (shapes'.get ⟨i, hi'⟩) := by
  intro shapes
  induction shapes with
  | nil =>
    intro shapes' h
    obtain rfl : ([] : List Json) = shapes' := by
      simpa [processShapes] using h
    exact ⟨rfl, fun i hi => absurd hi (by simp)⟩
  | cons s rest ih =>
    intro shapes' h
    unfold processShapes at h
    cases h1 : processShape geom ctx mapSt s with
    | error e => rw [h1] at h; exact Except.noConfusion h
    | ok s' =>
      rw [h1] at h
      cases h2 : processShapes geom ctx mapSt rest with
      | error e => rw [h2] at h; exact Except.noConfusion h
      | ok rest' =>
        rw [h2] at h
        dsimp only at h
        cases h
        obtain ⟨hlen, hpt⟩ := ih h2
        refine ⟨by simp [hlen], ?_⟩
        intro i hi hi'
        cases i with
        | zero => simpa using h1
        | succ i' =>
          simp only [List.get]
          exact hpt i' (by simpa using hi) (by simpa using hi')

theorem processShape_preserves {geom : Geom} {ctx : ScaleCtx}
    {mapSt : Option (List (ℕ × Point))} {s s' : Json}
    (h : processShape geom ctx mapSt s = .ok s') (k : String)
    (h1 : k ≠ "label") (h2 : k ≠ "area") : s'.getField k = s.getField k := by
  obtain ⟨pts, magQ, m, -, -, -, -, h5⟩ := processShape_ok h
  subst h5
  rw [getField_setField_ne _ "area" k _ h2, getField_setField_ne _ "label" k _ h1]

theorem processRecord_ok {env : Env} {exifExt : String} {geom : Geom}
    {st st2 : Option (List (ℕ × Point))} {p : String} {d d' : Json} {msgs : List String}
    (h : processRecord env exifExt geom st p d = .ok (st2, d', msgs)) :
    ∃ relStr ctx upd shapes shapes',
      d.getField "imagePath" = some (.str relStr) ∧
      resolveScale (env.image (pyJoin (dirname p) relStr)) (pyJoin (dirname p) relStr) p
        exifExt = .ok (ctx, upd, msgs) ∧
      st2 = (match upd with | some m => some m | none => st) ∧
      d.getField "shapes" = some (.arr shapes) ∧
      processShapes geom ctx st2 shapes = .ok shapes' ∧
      d' = d.setField "shapes" (.arr shapes') := by
  unfold processRecord at h
  cases h1 : d.getFieldE "imagePath" with
  | error e => rw [h1] at h; exact Except.noConfusion h
  | ok rel =>
    rw [h1] at h
    dsimp only at h
    cases rel with
    | str relStr =>
      dsimp only [Json.asStr] at h
      cases h2 : resolveScale (env.image (pyJoin (dirname p) relStr))
          (pyJoin (dirname p) relStr) p exifExt with
      | error e => rw [h2] at h; exact Except.noConfusion h
      | ok r =>
        obtain ⟨ctx, upd, msgs'⟩ := r
        rw [h2] at h
        dsimp only at h
        cases h3 : d.getFieldE "shapes" with
        | error e => rw [h3] at h; exact Except.noConfusion h
        | ok shapesJ =>
          rw [h3] at h
          dsimp only at h
          cases shapesJ with
          | arr shapes =>
            dsimp only [Json.asArr] at h
            cases upd with
            | some m =>
              dsimp only at h
              cases h4 : processShapes geom ctx (some m) shapes with
              | error e => rw [h4] at h; exact Except.noConfusion h
              | ok shapes' =>
                rw [h4] at h
                dsimp only at h
                injection h with h
                injection h with ha hb
                injection hb with hb hc
                exact ⟨relStr, ctx, some m, shapes, shapes',
                  getFieldE_ok_iff.mp h1, by rw [h2, hc], ha.symm,
                  getFieldE_ok_iff.mp h3, by rw [ha] at h4; exact h4, hb.symm⟩
            | none =>
              dsimp only at h
              cases h4 : processShapes geom ctx st shapes with
              | error e => rw [h4] at h; exact Except.noConfusion h
              | ok shapes' =>
                rw [h4] at h
                dsimp only at h
                injection h with h
                injection h with ha hb
                injection hb with hb hc
                exact ⟨relStr, ctx, none, shapes, shapes',
                  getFieldE_ok_iff.mp h1, by rw [h2, hc], ha.symm,
                  getFieldE_ok_iff.mp h3, by rw [ha] at h4; exact h4, hb.symm⟩
          | null => dsimp only [Json.asArr] at h; exact Except.noConfusion h
          | bool b => dsimp only [Json.asArr] at h; exact Except.noConfusion h
          | num q => dsimp only [Json.asArr] at h; exact Except.noConfusion h
          | str s0 => dsimp only [Json.asArr] at h; exact Except.noConfusion h
          | obj kvs => dsimp only [Json.asArr] at h; exact Except.noConfusion h
    | null => dsimp only [Json.asStr] at h; exact Except.noConfusion h
    | bool b => dsimp only [Json.asStr] at h; exact Except.noConfusion h
    | num q => dsimp only [Json.asStr] at h; exact Except.noConfusion h
    | arr xs => dsimp only [Json.asStr] at h; exact Except.noConfusion h
    | obj kvs => dsimp only [Json.asStr] at h; exact Except.noConfusion h

theorem writeLoop_untouched :
    ∀ (outs : List (String × Json)) (disk : String → Json) (q : String),
      q ∉ outs.map Prod.fst → (writeLoop disk outs).1 q = disk q := by
  intro outs
  induction outs with
  | nil => intro disk q h; rfl
  | cons pd rest ih =>
    intro disk q h
    obtain ⟨p0, d0⟩ := pd
    simp only [List.map_cons, List.mem_cons] at h
    push_neg at h
    unfold writeLoop
    rw [ih _ q h.2]
    simp [h.1]

theorem writeLoop_write :
    ∀ (outs : List (String × Json)) (disk : String → Json) (p : String) (j : Json),
      (outs.map Prod.fst).Nodup → (p, j) ∈ outs → (writeLoop disk outs).1 p = j := by
  intro outs
  induction outs with
  | nil => intro disk p j hnd h; exact absurd h (List.not_mem_nil _)
  | cons pd rest ih =>
    intro disk p j hnd hmem
    obtain ⟨p0, d0⟩ := pd
    simp only [List.map_cons, List.nodup_cons] at hnd
    rcases List.mem_cons.mp hmem with heq | hmem'
    · injection heq with he1 he2
      subst he1
      subst he2
      unfold writeLoop
      rw [writeLoop_untouched rest _ p hnd.1]
      simp
    · unfold writeLoop
      exact ih _ p j hnd.2 hmem'

theorem writeLoop_events :
    ∀ (outs : List (String × Json)) (disk : String → Json),
      (writeLoop disk outs).2 = outs.map (fun r => Event.wrote r.1) := by
  intro outs
  induction outs with
  | nil => intro disk; rfl
  | cons pd rest ih =>
    intro disk
    obtain ⟨p0, d0⟩ := pd
    unfold writeLoop
    rw [ih]
    simp

/-- C7: for every processed record, every field of the record other than its
"shapes" collection is unchanged, the shapes list keeps its length, every
shape field other than the added "label" and "area" is unchanged, and the
write loop stores exactly the processed record at the record's own path. -/
theorem record_fields_preserved (env : Env) (exifExt : String) (geom : Geom)
    (st st2 : Option (List (ℕ × Point))) (p : String) (d d' : Json) (msgs : List String)
    (h : processRecord env exifExt geom st p d = .ok (st2, d', msgs)) :
    (∀ k, k ≠ "shapes" → d'.getField k = d.getField k) ∧
    (∃ shapes shapes', d.getField "shapes" = some (.arr shapes) ∧
      d'.getField "shapes" = some (.arr shapes') ∧
      shapes'.length = shapes.length ∧
      (∀ i, ∀ hi : i < shapes.length, ∀ hi' : i < shapes'.length, ∀ k,
        k ≠ "label" → k ≠ "area" →
        (shapes'.get ⟨i, hi'⟩).getField k = (shapes.get ⟨i, hi⟩).getField k)) ∧
    (∀ (disk : String → Json) (outs : List (String × Json)),
      (outs.map Prod.fst).Nodup → (p, d') ∈ outs → (writeLoop disk outs).1 p = d') := by
  obtain ⟨relStr, ctx, upd, shapes, shapes', h1, h2, h3, h4, h5, h6⟩ := processRecord_ok h
  have hobj : ∃ kvs, d = .obj kvs := getFieldE_ok_obj (getFieldE_ok_iff.mpr h4)
  obtain ⟨kvs, rfl⟩ := hobj
  refine ⟨?_, ⟨shapes, shapes', h4, ?_, ?_, ?_⟩, ?_⟩
  · intro k hk
    subst h6
    exact getField_setField_ne _ "shapes" k _ hk
  · subst h6
    exact getField_setField_self kvs "shapes" (.arr shapes')
  · exact (processShapes_ok h5).1
  · intro i hi hi' k hk1 hk2
    exact processShape_preserves ((processShapes_ok h5).2 i hi hi') k hk1 hk2
  · intro disk outs hnd hmem
    exact writeLoop_write outs disk p d' hnd hmem

/-- Witness for C7: a concrete record with an empty shapes list, processed in
the fallback branch; all other fields are preserved and the write loop stores
the processed record. -/
theorem record_fields_preserved_witness :
    ∃ st2 d' msgs,
      processRecord plainEnv ".jpg" constGeom none "a.json" emptyRec
        = .ok (st2, d', msgs) ∧
      (∀ k, k ≠ "shapes" → d'.getField k = emptyRec.getField k) ∧
      (∃ shapes shapes', emptyRec.getField "shapes" = some (.arr shapes) ∧
        d'.getField "shapes" = some (.arr shapes') ∧
        shapes'.length = shapes.length ∧
        (∀ i, ∀ hi : i < shapes.length, ∀ hi' : i < shapes'.length, ∀ k,
          k ≠ "label" → k ≠ "area" →
          (shapes'.get ⟨i, hi'⟩).getField k = (shapes.get ⟨i, hi⟩).getField k)) ∧
      (∀ (disk : String → Json) (outs : List (String × Json)),
        (outs.map Prod.fst).Nodup → ("a.json", d') ∈ outs →
        (writeLoop disk outs).1 "a.json" = d') := by
  have hs : ∃ r, processRecord plainEnv ".jpg" constGeom none "a.json" emptyRec = .ok r :=
    ⟨_, rfl⟩
  obtain ⟨⟨st2, d', msgs⟩, h⟩ := hs
  obtain ⟨ha, hb, hc⟩ := record_fields_preserved plainEnv ".jpg" constGeom none st2
    "a.json" emptyRec d' msgs h
  exact ⟨st2, d', msgs, h, ha, hb, hc⟩

/-! ## The parse/filter stage (lines 41-49) -/

theorem mem_unique_of_nodup_fst {α β : Type} [DecidableEq α] :
    ∀ (l : List (α × β)) (p : α) (a b : β),
      (l.map Prod.fst).Nodup → (p, a) ∈ l → (p, b) ∈ l → a = b := by
  intro l
  induction l with
  | nil => intro p a b hnd ha; exact absurd ha (List.not_mem_nil _)
  | cons qc rest ih =>
    intro p a b hnd ha hb
    obtain ⟨q, c⟩ := qc
    simp only [List.map_cons, List.nodup_cons] at hnd
    rcases List.mem_cons.mp ha with hea | hma
    · rcases List.mem_cons.mp hb with heb | hmb
      · injection hea with he1 he2
        injection heb with he3 he4
        rw [he2, he4]
      · injection hea with he1 he2
        subst he1
        exact absurd (List.mem_map_of_mem Prod.fst hmb) hnd.1
    · rcases List.mem_cons.mp hb with heb | hmb
      · injection heb with he3 he4
        subst he3
        exact absurd (List.mem_map_of_mem Prod.fst hma) hnd.1
      · exact ih p a b hnd.2 hma hmb

theorem parseStage_warn :
    ∀ (files : List (String × Except PyErr Json)) (p : String) (j : Json)
      (data : List (String × Json)) (warns : List String),
      (p, Except.ok j) ∈ files → hasShapes j = .ok false →
      parseStage files = .ok (data, warns) →
      ("Warning: " ++ p ++ " has no shapes data") ∈ warns := by
  intro files
  induction files with
  | nil => intro p j data warns hmem; exact absurd hmem (List.not_mem_nil _)
  | cons qr rest ih =>
    intro p j data warns hmem hns h
    obtain ⟨q, r⟩ := qr
    unfold parseStage at h
    cases r with
    | error e => exact Except.noConfusion h
    | ok d =>
      dsimp only at h
      cases h1 : hasShapes d with
      | error e => rw [h1] at h; exact Except.noConfusion h
      | ok has =>
        rw [h1] at h
        dsimp only at h
        cases h2 : parseStage rest with
        | error e => rw [h2] at h; exact Except.noConfusion h
        | ok dw =>
          obtain ⟨data', warns'⟩ := dw
          rw [h2] at h
          dsimp only at h
          rcases List.mem_cons.mp hmem with heq | hmem'
          · injection heq with he1 he2
            subst he1
            obtain rfl : j = d := by injection he2
            rw [hns] at h1
            obtain rfl : false = has := by injection h1
            rw [if_neg (by simp)] at h
            injection h with h
            injection h with ha hb
            rw [← hb]
            exact List.mem_cons_self _ _
          · cases has with
            | true =>
              rw [if_pos rfl] at h
              injection h with h
              injection h with ha hb
              rw [← hb]
              exact ih p j data' warns' hmem' hns h2
            | false =>
              rw [if_neg (by simp)] at h
              injection h with h
              injection h with ha hb
              rw [← hb]
              exact List.mem_cons_of_mem _ (ih p j data' warns' hmem' hns h2)

theorem parseStage_data_mem :
    ∀ (files : List (String × Except PyErr Json)) (data : List (String × Json))
      (warns : List String) (q : String) (jq : Json),
      parseStage files = .ok (data, warns) → (q, jq) ∈ data →
      (q, Except.ok jq) ∈ files ∧ hasShapes jq = .ok true := by
  intro files
  induction files with
  | nil =>
    intro data warns q jq h hmem
    unfold parseStage at h
    injection h with h
    injection h with ha hb
    rw [← ha] at hmem
    exact absurd hmem (List.not_mem_nil _)
  | cons qr rest ih =>
    intro data warns q jq h hmem
    obtain ⟨q0, r⟩ := qr
    unfold parseStage at h
    cases r with
    | error e => exact Except.noConfusion h
    | ok d =>
      dsimp only at h
      cases h1 : hasShapes d with
      | error e => rw [h1] at h; exact Except.noConfusion h
      | ok has =>
        rw [h1] at h
        dsimp only at h
        cases h2 : parseStage rest with
        | error e => rw [h2] at h; exact Except.noConfusion h
        | ok dw =>
          obtain ⟨data', warns'⟩ := dw
          rw [h2] at h
          dsimp only at h
          cases has with
          | true =>
            rw [if_pos rfl] at h
            injection h with h
            injection h with ha hb
            rw [← ha] at hmem
            rcases List.mem_cons.mp hmem with heq | hmem'
            · injection heq with he1 he2
              subst he1
              subst he2
              exact ⟨List.mem_cons_self _ _, h1⟩
            · obtain ⟨hin, hsh⟩ := ih data' warns' q jq h2 hmem'
              exact ⟨List.mem_cons_of_mem _ hin, hsh⟩
          | false =>
            rw [if_neg (by simp)] at h
            injection h with h
            injection h with ha hb
            rw [← ha] at hmem
            obtain ⟨hin, hsh⟩ := ih data' warns' q jq h2 hmem
            exact ⟨List.mem_cons_of_mem _ hin, hsh⟩

theorem parseStage_error :
    ∀ (files : List (String × Except PyErr Json)) (p : String) (e : PyErr),
      (p, Except.error e) ∈ files → ∃ e', parseStage files = .error e' := by
  intro files
  induction files with
  | nil => intro p e hmem; exact absurd hmem (List.not_mem_nil _)
  | cons qr rest ih =>
    intro p e hmem
    obtain ⟨q, r⟩ := qr
    cases r with
    | error e0 => exact ⟨e0, by unfold parseStage; rfl⟩
    | ok d =>
      have hmem' : (p, Except.error e) ∈ rest := by
        rcases List.mem_cons.mp hmem with heq | hmem'
        · injection heq with he1 he2
          exact Except.noConfusion he2
        · exact hmem'
      cases h1 : hasShapes d with
      | error e1 =>
        refine ⟨e1, ?_⟩
        unfold parseStage
        dsimp only
        rw [h1]
      | ok has =>
        obtain ⟨e', he'⟩ := ih p e hmem'
        refine ⟨e', ?_⟩
        unfold parseStage
        dsimp only
        rw [h1]
        dsimp only
        rw [he']

/-! ## The measurement loop as a whole -/

theorem measureLoop_shape {env : Env} {exifExt : String} {geom : Geom} :
    ∀ (data : List (String × Json)) (st st1 : Option (List (ℕ × Point)))
      (outs : List (String × Json)) (msgs : List String) (evs : List Event),
      measureLoop env exifExt geom st data = .ok (st1, outs, msgs, evs) →
      outs.map Prod.fst = data.map Prod.fst ∧
      evs = data.map (fun r => Event.measured r.1) := by
  intro data
  induction data with
  | nil =>
    intro st st1 outs msgs evs h
    obtain ⟨rfl, rfl, rfl, rfl⟩ : st = st1 ∧ ([] : List (String × Json)) = outs ∧
        ([] : List String) = msgs ∧ ([] : List Event) = evs := by
      unfold measureLoop at h
      injection h with h
      injection h with h1 h2
      injection h2 with h2 h3
      injection h3 with h3 h4
      exact ⟨h1, h2, h3, h4⟩
    exact ⟨rfl, rfl⟩
  | cons pd rest ih =>
    intro st st1 outs msgs evs h
    obtain ⟨p, d⟩ := pd
    unfold measureLoop at h
    cases h1 : processRecord env exifExt geom st p d with
    | error e => rw [h1] at h; exact Except.noConfusion h
    | ok r =>
      obtain ⟨st', d', msgs0⟩ := r
      rw [h1] at h
      dsimp only at h
      cases h2 : measureLoop env exifExt geom st' rest with
      | error e => rw [h2] at h; exact Except.noConfusion h
      | ok r2 =>
        obtain ⟨st'', outs', msgs', evs'⟩ := r2
        rw [h2] at h
        dsimp only at h
        injection h with h
        injection h with ha hb
        injection hb with hb hc
        injection hc with hc hd
        obtain ⟨ho, he⟩ := ih st' st'' outs' msgs' evs' h2
        constructor
        · rw [← hb]
          simp [ho]
        · rw [← hd]
          simp [he]

/-- C8: a discovered file that parses but lacks a "shapes" entry gets a
warning, is excluded from the kept data (and hence never written, leaving its
disk content untouched); a file that does not parse at all aborts the whole
run with an error. -/
theorem missing_shapes_excluded :
    (∀ (files : List (String × Except PyErr Json)) (p : String) (j : Json)
       (data : List (String × Json)) (warns : List String),
      (p, Except.ok j) ∈ files → hasShapes j = .ok false →
      parseStage files = .ok (data, warns) →
      ("Warning: " ++ p ++ " has no shapes data") ∈ warns ∧
      ((files.map Prod.fst).Nodup → p ∉ data.map Prod.fst))
  ∧ (∀ (env : Env) (exifExt : String) (geom : Geom)
       (files : List (String × Except PyErr Json)) (disk : String → Json)
       (p : String) (j : Json) (outs : List (String × Json)) (disk' : String → Json)
       (evs : List Event) (msgs : List String),
      (p, Except.ok j) ∈ files → hasShapes j = .ok false →
      (files.map Prod.fst).Nodup →
      runPipeline env exifExt geom files disk = .ok (outs, disk', evs, msgs) →
      disk' p = disk p)
  ∧ (∀ (files : List (String × Except PyErr Json)) (p : String) (e : PyErr),
      (p, Except.error e) ∈ files →
      (∃ e', parseStage files = .error e') ∧
      ∀ (env : Env) (exifExt : String) (geom : Geom) (disk : String → Json),
        ∃ e'', runPipeline env exifExt geom files disk = .error e'') := by
  have hnotin : ∀ (files : List (String × Except PyErr Json)) (p : String) (j : Json)
      (data : List (String × Json)) (warns : List String),
      (p, Except.ok j) ∈ files → hasShapes j = .ok false →
      parseStage files = .ok (data, warns) →
      (files.map Prod.fst).Nodup → p ∉ data.map Prod.fst := by
    intro files p j data warns hmem hns h hnd hp
    obtain ⟨⟨q, jq⟩, hqd, hq⟩ := List.mem_map.mp hp
    dsimp at hq
    obtain ⟨hin, hsh⟩ := parseStage_data_mem files data warns q jq h hqd
    rw [hq] at hin
    have hj : Except.ok j = Except.ok jq :=
      mem_unique_of_nodup_fst files p (Except.ok j) (Except.ok jq) hnd hmem hin
    obtain rfl : j = jq := by injection hj
    rw [hns] at hsh
    exact Bool.noConfusion (by injection hsh : false = true)
  refine ⟨?_, ?_, ?_⟩
  · intro files p j data warns hmem hns h
    exact ⟨parseStage_warn files p j data warns hmem hns h,
      hnotin files p j data warns hmem hns h⟩
  · intro env exifExt geom files disk p j outs disk' evs msgs hmem hns hnd hrun
    unfold runPipeline at hrun
    cases h1 : parseStage files with
    | error e => rw [h1] at hrun; exact Except.noConfusion hrun
    | ok dw =>
      obtain ⟨data, warns⟩ := dw
      rw [h1] at hrun
      dsimp only at hrun
      cases h2 : measureLoop env exifExt geom none data with
      | error e => rw [h2] at hrun; exact Except.noConfusion hrun
      | ok r2 =>
        obtain ⟨st1, outs0, msgs0, evs0⟩ := r2
        rw [h2] at hrun
        dsimp only at hrun
        injection hrun with hrun
        injection hrun with ha hb
        injection hb with hb hc
        obtain ⟨ho, -⟩ := measureLoop_shape data none st1 outs0 msgs0 evs0 h2
        have hpo : p ∉ outs0.map Prod.fst := by
          rw [ho]
          exact hnotin files p j data warns hmem hns h1 hnd
        rw [← hb]
        exact writeLoop_untouched outs0 disk p hpo
  · intro files p e hmem
    obtain ⟨e', he'⟩ := parseStage_error files p e hmem
    refine ⟨⟨e', he'⟩, ?_⟩
    intro env exifExt geom disk
    refine ⟨e', ?_⟩
    unfold runPipeline
    rw [he']

/-- Witness for C8: a single file without a "shapes" entry is warned about
and excluded. -/
theorem missing_shapes_excluded_witness :
    ("Warning: " ++ "bad.json" ++ " has no shapes data")
        ∈ ["Warning: " ++ "bad.json" ++ " has no shapes data"] ∧
      ((([("bad.json", (Except.ok (Json.obj []) : Except PyErr Json))]).map Prod.fst).Nodup →
        "bad.json" ∉ (([] : List (String × Json))).map Prod.fst) :=
  missing_shapes_excluded.1 [("bad.json", .ok (Json.obj []))] "bad.json" (Json.obj [])
    [] ["Warning: " ++ "bad.json" ++ " has no shapes data"]
    (List.mem_singleton.mpr rfl) rfl rfl

/-! ## Measurement/write ordering (C5) -/

/-- C5 fails as stated: with two kept entries the trace is
measure-a, measure-b, write-a, write-b — entry a's write is NOT performed
before entry b is processed (every occurrence of `wrote "a.json"` comes
strictly after every occurrence of `measured "b.json"`). -/
theorem writes_deferred_counterexample :
    pipelineEvents plainEnv ".jpg" constGeom
        [("a.json", .ok emptyRec), ("b.json", .ok emptyRec)] emptyDisk
      = .ok [.measured "a.json", .measured "b.json", .wrote "a.json", .wrote "b.json"] ∧
    (∀ i j : Fin 4,
      [Event.measured "a.json", .measured "b.json",
        .wrote "a.json", .wrote "b.json"].get i = .wrote "a.json" →
      [Event.measured "a.json", .measured "b.json",
        .wrote "a.json", .wrote "b.json"].get j = .measured "b.json" →
      (j : ℕ) < (i : ℕ)) := by
  constructor
  · rfl
  · decide

/-- C5 (amended, as the counterexample forces): the measurement stage only
augments the records in memory; all file writes are deferred to a separate
final loop that runs after every entry has been measured, in the same entry
order — the trace is all `measured` events followed by all `wrote` events. -/
theorem writes_deferred (env : Env) (exifExt : String) (geom : Geom)
    (files : List (String × Except PyErr Json)) (disk : String → Json)
    (outs : List (String × Json)) (disk' : String → Json) (evs : List Event)
    (msgs : List String)
    (h : runPipeline env exifExt geom files disk = .ok (outs, disk', evs, msgs)) :
    ∃ data warns, parseStage files = .ok (data, warns) ∧
      evs = data.map (fun r => Event.measured r.1)
        ++ data.map (fun r => Event.wrote r.1) := by
  unfold runPipeline at h
  cases h1 : parseStage files with
  | error e => rw [h1] at h; exact Except.noConfusion h
  | ok dw =>
    obtain ⟨data, warns⟩ := dw
    rw [h1] at h
    dsimp only at h
    cases h2 : measureLoop env exifExt geom none data with
    | error e => rw [h2] at h; exact Except.noConfusion h
    | ok r2 =>
      obtain ⟨st1, outs0, msgs0, mevs⟩ := r2
      rw [h2] at h
      dsimp only at h
      injection h with h
      injection h with ha hb
      injection hb with hb hc
      injection hc with hc hd
      obtain ⟨ho, he⟩ := measureLoop_shape data none st1 outs0 msgs0 mevs h2
      refine ⟨data, warns, rfl, ?_⟩
      rw [← hc, he, writeLoop_events]
      congr 1
      have : outs0.map (fun r => Event.wrote r.1)
          = (outs0.map Prod.fst).map Event.wrote := by
        rw [List.map_map]
        rfl
      rw [this, ho, List.map_map]
      rfl

/-- Witness for C5 (amended): the concrete two-entry run. -/
theorem writes_deferred_witness :
    ∃ outs disk' evs msgs data warns,
      runPipeline plainEnv ".jpg" constGeom
        [("a.json", Except.ok emptyRec), ("b.json", Except.ok emptyRec)] emptyDisk
        = .ok (outs, disk', evs, msgs) ∧
      parseStage [("a.json", Except.ok emptyRec), ("b.json", Except.ok emptyRec)]
        = .ok (data, warns) ∧
      evs = data.map (fun r => Event.measured r.1)
        ++ data.map (fun r => Event.wrote r.1) := by
  have hs : ∃ r, runPipeline plainEnv ".jpg" constGeom
      [("a.json", Except.ok emptyRec), ("b.json", Except.ok emptyRec)] emptyDisk
      = .ok r := ⟨_, rfl⟩
  obtain ⟨⟨outs, disk', evs, msgs⟩, h⟩ := hs
  obtain ⟨data, warns, h1, h2⟩ := writes_deferred _ _ _ _ _ _ _ _ _ h
  exact ⟨outs, disk', evs, msgs, data, warns, h, h1, h2⟩

/-! ## The `ocr_text_map` variable across records (C3) -/

theorem resolveScale_exif_shape {img : ImageData} {ip entry ext : String} {ctx : ScaleCtx}
    {upd : Option (List (ℕ × Point))} {msgs : List String}
    (he : pyEndsWith ip ext = true) (hu : img.userComment.isSome)
    (h : resolveScale img ip entry ext = .ok (ctx, upd, msgs)) :
    upd = none ∧ ctx.exifFound = true := by
  unfold resolveScale at h
  rw [if_pos he] at h
  cases hc : img.userComment with
  | none => rw [hc] at hu; exact Bool.noConfusion hu
  | some uc =>
    rw [hc] at h
    dsimp only at h
    cases h1 : uc.getFieldE "effectivePixelSize" with
    | error e => rw [h1] at h; exact Except.noConfusion h
    | ok epsJ =>
      rw [h1] at h
      dsimp only at h
      cases h2 : epsJ.asNum with
      | error e => rw [h2] at h; exact Except.noConfusion h
      | ok eps =>
        rw [h2] at h
        dsimp only at h
        cases h3 : uc.getFieldE "objectiveMag" with
        | error e => rw [h3] at h; exact Except.noConfusion h
        | ok om =>
          rw [h3] at h
          dsimp only at h
          injection h with h
          injection h with ha hb
          injection hb with hb hc2
          rw [← hb, ← ha]
          exact ⟨rfl, rfl⟩

theorem resolveScale_fallback_shape {img : ImageData} {ip entry ext : String} {ctx : ScaleCtx}
    {upd : Option (List (ℕ × Point))} {msgs : List String}
    (hor : pyEndsWith ip ext = false ∨ img.userComment = none)
    (h : resolveScale img ip entry ext = .ok (ctx, upd, msgs)) :
    upd = some (buildOcrMap img.ocr).1 ∧ ctx.exifFound = false := by
  unfold resolveScale at h
  rcases hor with he | hu
  · rw [he] at h
    simp only [Bool.false_eq_true, if_false] at h
    injection h with h
    injection h with ha hb
    injection hb with hb hc
    rw [← hb, ← ha]
    exact ⟨rfl, rfl⟩
  · by_cases he : pyEndsWith ip ext = true
    · rw [if_pos he, hu] at h
      dsimp only at h
      injection h with h
      injection h with ha hb
      injection hb with hb hc
      rw [← hb, ← ha]
      exact ⟨rfl, rfl⟩
    · rw [Bool.not_eq_true] at he
      rw [he] at h
      simp only [Bool.false_eq_true, if_false] at h
      injection h with h
      injection h with ha hb
      injection hb with hb hc
      rw [← hb, ← ha]
      exact ⟨rfl, rfl⟩

theorem processRecord_state {env : Env} {exifExt : String} {geom : Geom}
    {st st2 : Option (List (ℕ × Point))} {p : String} {d d' : Json} {msgs : List String}
    (h : processRecord env exifExt geom st p d = .ok (st2, d', msgs)) :
    st2 = (if takesExifPath env exifExt p d then st
           else
             match recImagePath p d with
             | some ip => some (buildOcrMap (env.image ip).ocr).1
             | none => st) := by
  obtain ⟨relStr, ctx, upd, shapes, shapes', h1, h2, h3, -, -, -⟩ := processRecord_ok h
  have hip : recImagePath p d = some (pyJoin (dirname p) relStr) := by
    unfold recImagePath
    rw [h1]
  rw [hip]
  have htake : takesExifPath env exifExt p d
      = (pyEndsWith (pyJoin (dirname p) relStr) exifExt
          && (env.image (pyJoin (dirname p) relStr)).userComment.isSome) := by
    unfold takesExifPath
    rw [hip]
  by_cases ht : takesExifPath env exifExt p d = true
  · rw [if_pos ht]
    rw [htake, Bool.and_eq_true] at ht
    obtain ⟨hupd, -⟩ := resolveScale_exif_shape ht.1 ht.2 h2
    rw [hupd] at h3
    exact h3
  · rw [Bool.not_eq_true] at ht
    rw [ht]
    simp only [Bool.false_eq_true, if_false]
    rw [htake, Bool.and_eq_false_iff] at ht
    have hor : pyEndsWith (pyJoin (dirname p) relStr) exifExt = false
        ∨ (env.image (pyJoin (dirname p) relStr)).userComment = none := by
      rcases ht with ht | ht
      · exact Or.inl ht
      · exact Or.inr (Option.not_isSome_iff_eq_none.mp (by rw [ht]; exact Bool.false_ne_true))
    obtain ⟨hupd, -⟩ := resolveScale_fallback_shape hor h2
    rw [hupd] at h3
    exact h3

theorem measureLoop_state {env : Env} {exifExt : String} {geom : Geom} :
    ∀ (rs : List (String × Json)) (st st1 : Option (List (ℕ × Point)))
      (outs : List (String × Json)) (msgs : List String) (evs : List Event),
      measureLoop env exifExt geom st rs = .ok (st1, outs, msgs, evs) →
      st1 = lastFallbackMap env exifExt rs st := by
  intro rs
  induction rs with
  | nil =>
    intro st st1 outs msgs evs h
    unfold measureLoop at h
    injection h with h
    injection h with ha hb
    exact ha.symm
  | cons pd rest ih =>
    intro st st1 outs msgs evs h
    obtain ⟨p, d⟩ := pd
    unfold measureLoop at h
    cases h1 : processRecord env exifExt geom st p d with
    | error e => rw [h1] at h; exact Except.noConfusion h
    | ok r =>
      obtain ⟨st', d', msgs0⟩ := r
      rw [h1] at h
      dsimp only at h
      cases h2 : measureLoop env exifExt geom st' rest with
      | error e => rw [h2] at h; exact Except.noConfusion h
      | ok r2 =>
        obtain ⟨st'', outs', msgs', evs'⟩ := r2
        rw [h2] at h
        dsimp only at h
        injection h with h
        injection h with ha hb
        have hst : st1 = lastFallbackMap env exifExt rest st' := by
          rw [← ha]
          exact ih st' st'' outs' msgs' evs' h2
        rw [hst]
        have hstep : lastFallbackMap env exifExt ((p, d) :: rest) st
            = lastFallbackMap env exifExt rest
              (if takesExifPath env exifExt p d then st
               else
                 match recImagePath p d with
                 | some ip => some (buildOcrMap (env.image ip).ocr).1
                 | none => st) := rfl
        rw [hstep, ← processRecord_state h1]

theorem measureLoop_append_error {env : Env} {exifExt : String} {geom : Geom} :
    ∀ (rs : List (String × Json)) (st stPre : Option (List (ℕ × Point)))
      (outs : List (String × Json)) (msgs : List String) (evs : List Event)
      (p : String) (d : Json) (e : PyErr) (rest : List (String × Json)),
      measureLoop env exifExt geom st rs = .ok (stPre, outs, msgs, evs) →
      processRecord env exifExt geom stPre p d = .error e →
      measureLoop env exifExt geom st (rs ++ (p, d) :: rest) = .error e := by
  intro rs
  induction rs with
  | nil =>
    intro st stPre outs msgs evs p d e rest h hpr
    unfold measureLoop at h
    cases h
    rw [List.nil_append]
    unfold measureLoop
    rw [hpr]
  | cons qd rs' ih =>
    intro st stPre outs msgs evs p d e rest h hpr
    obtain ⟨q, dq⟩ := qd
    unfold measureLoop at h
    cases h1 : processRecord env exifExt geom st q dq with
    | error e0 => rw [h1] at h; exact Except.noConfusion h
    | ok r =>
      obtain ⟨st', dq', msgs0⟩ := r
      rw [h1] at h
      dsimp only at h
      cases h2 : measureLoop env exifExt geom st' rs' with
      | error e0 => rw [h2] at h; exact Except.noConfusion h
      | ok r2 =>
        obtain ⟨st'', outs', msgs', evs'⟩ := r2
        rw [h2] at h
        dsimp only at h
        injection h with h
        injection h with ha hb
        rw [List.cons_append]
        unfold measureLoop
        rw [h1]
        dsimp only
        rw [ih st' stPre outs' msgs' evs' p d e rest (by rw [h2, ha]) hpr]

/-- C3: the `ocr_text_map` variable is not reset per record.  Part 1: a
record that takes the metadata (EXIF) branch leaves the variable unchanged
and labels its shapes with the INCOMING map — whatever the most recent
fallback-branch record left there.  Part 2: after any prefix of records, the
variable holds exactly `lastFallbackMap` — the map built from the most
recently processed fallback-branch record's image (of a different file), or
the initial state when there is none.  Part 3: if no fallback-branch record
was processed earlier, an EXIF-branch record with at least one shape aborts
the whole run with a `NameError`. -/
theorem stale_marker_map :
    (∀ (env : Env) (exifExt : String) (geom : Geom)
       (st st2 : Option (List (ℕ × Point))) (p : String) (d d' : Json)
       (msgs : List String),
      processRecord env exifExt geom st p d = .ok (st2, d', msgs) →
      takesExifPath env exifExt p d = true →
      st2 = st ∧ ∃ ctx shapes shapes', ctx.exifFound = true ∧
        d.getField "shapes" = some (.arr shapes) ∧
        processShapes geom ctx st shapes = .ok shapes' ∧
        d' = d.setField "shapes" (.arr shapes'))
  ∧ (∀ (env : Env) (exifExt : String) (geom : Geom) (rs : List (String × Json))
       (st st1 : Option (List (ℕ × Point))) (outs : List (String × Json))
       (msgs : List String) (evs : List Event),
      measureLoop env exifExt geom st rs = .ok (st1, outs, msgs, evs) →
      st1 = lastFallbackMap env exifExt rs st)
  ∧ (∀ (env : Env) (exifExt : String) (geom : Geom) (rs : List (String × Json))
       (stPre : Option (List (ℕ × Point))) (outs : List (String × Json))
       (msgs : List String) (evs : List Event) (p : String) (d : Json)
       (rest : List (String × Json)) (relStr : String) (uc om : Json) (eps omQ : ℚ)
       (s0 : Json) (srest : List Json) (pts : Json),
      measureLoop env exifExt geom none rs = .ok (stPre, outs, msgs, evs) →
      lastFallbackMap env exifExt rs none = none →
      d.getField "imagePath" = some (.str relStr) →
      pyEndsWith (pyJoin (dirname p) relStr) exifExt = true →
      (env.image (pyJoin (dirname p) relStr)).userComment = some uc →
      uc.getFieldE "effectivePixelSize" = .ok (.num eps) →
      uc.getFieldE "objectiveMag" = .ok om →
      om.asNum = .ok omQ → omQ ≠ 0 →
      d.getField "shapes" = some (.arr (s0 :: srest)) →
      s0.getFieldE "points" = .ok pts →
      measureLoop env exifExt geom none (rs ++ (p, d) :: rest) = .error .nameError) := by
  refine ⟨?_, ?_, ?_⟩
  · intro env exifExt geom st st2 p d d' msgs h ht
    obtain ⟨relStr, ctx, upd, shapes, shapes', h1, h2, h3, h4, h5, h6⟩ := processRecord_ok h
    have hip : recImagePath p d = some (pyJoin (dirname p) relStr) := by
      unfold recImagePath
      rw [h1]
    unfold takesExifPath at ht
    rw [hip] at ht
    rw [Bool.and_eq_true] at ht
    obtain ⟨hupd, hexif⟩ := resolveScale_exif_shape ht.1 ht.2 h2
    subst hupd
    have hst : st2 = st := h3
    subst hst
    exact ⟨rfl, ctx, shapes, shapes', hexif, h4, h5, h6⟩
  · intro env exifExt geom rs st st1 outs msgs evs h
    exact measureLoop_state rs st st1 outs msgs evs h
  · intro env exifExt geom rs stPre outs msgs evs p d rest relStr uc om eps omQ s0 srest
      pts hloop hlast h1 h2 h3 h4 h5 h6 h7 h8 h9
    have hstPre : stPre = none := by
      rw [measureLoop_state rs none stPre outs msgs evs hloop, hlast]
    subst hstPre
    have hrs : resolveScale (env.image (pyJoin (dirname p) relStr))
        (pyJoin (dirname p) relStr) p exifExt
        = .ok (⟨eps / 10 ^ 6, om, true⟩, none, []) := by
      unfold resolveScale
      rw [if_pos h2, h3]
      dsimp only
      rw [h4]
      dsimp only
      rw [show (Json.num eps).asNum = .ok eps from rfl]
      dsimp only
      rw [h5]
    have hshape : processShape geom ⟨eps / 10 ^ 6, om, true⟩ none s0
        = .error .nameError := by
      unfold processShape
      rw [h9]
      dsimp only
      rw [show (⟨eps / 10 ^ 6, om, true⟩ : ScaleCtx).mag.asNum = om.asNum from rfl, h6]
      dsimp only
      rw [if_neg h7]
    have hpr : processRecord env exifExt geom none p d = .error .nameError := by
      unfold processRecord
      rw [getFieldE_ok_iff.mpr h1]
      dsimp only [Json.asStr]
      rw [hrs]
      dsimp only
      rw [getFieldE_ok_iff.mpr h8]
      dsimp only [Json.asArr]
      unfold processShapes
      rw [hshape]
    exact measureLoop_append_error rs none none outs msgs evs p d .nameError rest
      hloop hpr

/-- Witness for C3: one EXIF-branch record with one shape, processed first in
the run — the loop aborts with a `NameError`. -/
theorem stale_marker_map_witness :
    measureLoop exifEnv ".jpg" constGeom none ([] ++ ("e.json", exifRec) :: [])
      = .error .nameError :=
  stale_marker_map.2.2 exifEnv ".jpg" constGeom [] none [] [] [] "e.json" exifRec []
    "scan.jpg" ucFixture (Json.num 10) 2 10 (Json.obj [("points", Json.arr [])]) []
    (Json.arr []) rfl rfl rfl (by decide) rfl rfl rfl rfl (by norm_num) rfl rfl

/-! ## Discovery (lines 29-36, C10) -/

theorem todoMeasure_append_thm (a b : List (String × List FS)) :
    todoMeasure (a ++ b) = todoMeasure a + todoMeasure b := by
  simp [todoMeasure]

theorem scanOne_measure (p ext : String) (cs : List FS) :
    todoMeasure (scanOne p ext cs).1 ≤ fsSizeList cs := by
  induction cs with
  | nil => simp [scanOne, todoMeasure]
  | cons c rest ih =>
    cases c with
    | file n =>
      simp only [scanOne, fsSizeList, fsSize] at ih ⊢
      split <;> (try dsimp only) <;> omega
    | dir n cs' =>
      simp only [scanOne, todoMeasure, List.map_cons, List.sum_cons, fsSizeList, fsSize]
        at ih ⊢
      omega

theorem getLast?_measure (todo : List (String × List FS)) (d : String × List FS)
    (h : todo.getLast? = some d) :
    todoMeasure todo = todoMeasure todo.dropLast + (1 + fsSizeList d.2) := by
  induction todo with
  | nil => simp at h
  | cons t ts ih =>
    cases ts with
    | nil =>
      simp [List.getLast?] at h
      subst h
      simp [todoMeasure]
    | cons t' ts' =>
      rw [List.getLast?_cons_cons] at h
      have := ih h
      simp only [List.dropLast_cons₂, todoMeasure, List.map_cons, List.sum_cons] at *
      omega

theorem scanOne_dirs_mem (p ext : String) (cs : List FS) (pcs : String × List FS) :
    pcs ∈ (scanOne p ext cs).1
      ↔ ∃ n cs', FS.dir n cs' ∈ cs ∧ pcs = (pyJoin p n, cs') := by
  induction cs with
  | nil => simp [scanOne]
  | cons c rest ih =>
    cases c with
    | file n =>
      constructor
      · intro h
        have h' : pcs ∈ (scanOne p ext rest).1 := by
          simp only [scanOne] at h
          split at h <;> simpa using h
        obtain ⟨n0, cs0, hmem, heq⟩ := ih.mp h'
        exact ⟨n0, cs0, List.mem_cons_of_mem _ hmem, heq⟩
      · rintro ⟨n0, cs0, hmem, heq⟩
        rcases List.mem_cons.mp hmem with hc | hmem'
        · exact absurd hc (by simp)
        · have h' : pcs ∈ (scanOne p ext rest).1 := ih.mpr ⟨n0, cs0, hmem', heq⟩
          simp only [scanOne]
          split <;> simpa using h'
    | dir n cs' =>
      constructor
      · intro h
        rcases List.mem_cons.mp (show pcs ∈ (pyJoin p n, cs') :: (scanOne p ext rest).1
            from h) with heq | hmem
        · exact ⟨n, cs', List.mem_cons_self _ _, heq⟩
        · obtain ⟨n0, cs0, hmem0, heq0⟩ := ih.mp hmem
          exact ⟨n0, cs0, List.mem_cons_of_mem _ hmem0, heq0⟩
      · rintro ⟨n0, cs0, hmem0, heq0⟩
        show pcs ∈ (pyJoin p n, cs') :: (scanOne p ext rest).1
        rcases List.mem_cons.mp hmem0 with hc | hmem'
        · have h1 : n0 = n := by injection hc
          have h2 : cs0 = cs' := by injection hc
          subst h1
          subst h2
          rw [heq0]
          exact List.mem_cons_self _ _
        · exact List.mem_cons_of_mem _ (ih.mpr ⟨n0, cs0, hmem', heq0⟩)

theorem scanOne_files_mem (p ext : String) (cs : List FS) (q : String) :
    q ∈ (scanOne p ext cs).2
      ↔ ∃ n, FS.file n ∈ cs ∧ q = pyJoin p n ∧ pyEndsWith n ext = true := by
  induction cs with
  | nil => simp [scanOne]
  | cons c rest ih =>
    cases c with
    | file n =>
      constructor
      · intro h
        simp only [scanOne] at h
        by_cases he : pyEndsWith n ext = true
        · rw [if_pos he] at h
          rcases List.mem_cons.mp h with heq | hmem
          · exact ⟨n, List.mem_cons_self _ _, heq, he⟩
          · obtain ⟨n0, hm, he0, hend0⟩ := ih.mp hmem
            exact ⟨n0, List.mem_cons_of_mem _ hm, he0, hend0⟩
        · rw [if_neg he] at h
          obtain ⟨n0, hm, he0, hend0⟩ := ih.mp h
          exact ⟨n0, List.mem_cons_of_mem _ hm, he0, hend0⟩
      · rintro ⟨n0, hm, he0, hend0⟩
        simp only [scanOne]
        rcases List.mem_cons.mp hm with hc | hm'
        · have hn : n0 = n := by injection hc
          subst hn
          rw [if_pos hend0, he0]
          exact List.mem_cons_self _ _
        · have h' := ih.mpr ⟨n0, hm', he0, hend0⟩
          split
          · exact List.mem_cons_of_mem _ h'
          · exact h'
    | dir n cs' =>
      constructor
      · intro h
        have h' : q ∈ (scanOne p ext rest).2 := h
        obtain ⟨n0, hm, he0, hend0⟩ := ih.mp h'
        exact ⟨n0, List.mem_cons_of_mem _ hm, he0, hend0⟩
      · rintro ⟨n0, hm, he0, hend0⟩
        rcases List.mem_cons.mp hm with hc | hm'
        · exact absurd hc (by simp)
        · show q ∈ (scanOne p ext rest).2
          exact ih.mpr ⟨n0, hm', he0, hend0⟩

theorem allFiles_mem (p : String) (cs : List FS) (pn : String × String) :
    pn ∈ allFiles p cs
      ↔ (∃ n, FS.file n ∈ cs ∧ pn = (pyJoin p n, n))
        ∨ (∃ n cs', FS.dir n cs' ∈ cs ∧ pn ∈ allFiles (pyJoin p n) cs') := by
  induction cs with
  | nil => simp [allFiles]
  | cons c rest ih =>
    cases c with
    | file n =>
      rw [show allFiles p (FS.file n :: rest) = (pyJoin p n, n) :: allFiles p rest from by
        simp [allFiles]]
      constructor
      · intro h
        rcases List.mem_cons.mp h with heq | hmem
        · exact Or.inl ⟨n, List.mem_cons_self _ _, heq⟩
        · rcases ih.mp hmem with ⟨n0, hm, he⟩ | ⟨n0, cs0, hm, he⟩
          · exact Or.inl ⟨n0, List.mem_cons_of_mem _ hm, he⟩
          · exact Or.inr ⟨n0, cs0, List.mem_cons_of_mem _ hm, he⟩
      · intro h
        rcases h with ⟨n0, hm, he⟩ | ⟨n0, cs0, hm, he⟩
        · rcases List.mem_cons.mp hm with hc | hm'
          · have hn : n0 = n := by injection hc
            subst hn
            rw [he]
            exact List.mem_cons_self _ _
          · exact List.mem_cons_of_mem _ (ih.mpr (Or.inl ⟨n0, hm', he⟩))
        · rcases List.mem_cons.mp hm with hc | hm'
          · exact absurd hc (by simp)
          · exact List.mem_cons_of_mem _ (ih.mpr (Or.inr ⟨n0, cs0, hm', he⟩))
    | dir n cs' =>
      rw [show allFiles p (FS.dir n cs' :: rest)
          = allFiles (pyJoin p n) cs' ++ allFiles p rest from by simp [allFiles]]
      constructor
      · intro h
        rcases List.mem_append.mp h with hmem | hmem
        · exact Or.inr ⟨n, cs', List.mem_cons_self _ _, hmem⟩
        · rcases ih.mp hmem with ⟨n0, hm, he⟩ | ⟨n0, cs0, hm, he⟩
          · exact Or.inl ⟨n0, List.mem_cons_of_mem _ hm, he⟩
          · exact Or.inr ⟨n0, cs0, List.mem_cons_of_mem _ hm, he⟩
      · intro h
        rcases h with ⟨n0, hm, he⟩ | ⟨n0, cs0, hm, he⟩
        · rcases List.mem_cons.mp hm with hc | hm'
          · exact absurd hc (by simp)
          · exact List.mem_append_right _ (ih.mpr (Or.inl ⟨n0, hm', he⟩))
        · rcases List.mem_cons.mp hm with hc | hm'
          · have h1 : n0 = n := by injection hc
            have h2 : cs0 = cs' := by injection hc
            subst h1
            subst h2
            exact List.mem_append_left _ he
          · exact List.mem_append_right _ (ih.mpr (Or.inr ⟨n0, cs0, hm', he⟩))

theorem scanOne_step (p ext : String) (cs : List FS) (q : String) :
    (q ∈ (scanOne p ext cs).2 ∨
      ∃ pcs ∈ (scanOne p ext cs).1,
        ∃ pn ∈ allFiles pcs.1 pcs.2, q = pn.1 ∧ pyEndsWith pn.2 ext = true)
    ↔ ∃ pn ∈ allFiles p cs, q = pn.1 ∧ pyEndsWith pn.2 ext = true := by
  constructor
  · intro h
    rcases h with hf | ⟨pcs, hpcs, pn, hpn, hq, he⟩
    · obtain ⟨n, hmem, heq, hend⟩ := (scanOne_files_mem p ext cs q).mp hf
      exact ⟨(pyJoin p n, n), (allFiles_mem p cs _).mpr (Or.inl ⟨n, hmem, rfl⟩), heq, hend⟩
    · obtain ⟨n, cs', hmem, heq⟩ := (scanOne_dirs_mem p ext cs pcs).mp hpcs
      subst heq
      exact ⟨pn, (allFiles_mem p cs pn).mpr (Or.inr ⟨n, cs', hmem, hpn⟩), hq, he⟩
  · rintro ⟨pn, hpn, hq, he⟩
    rcases (allFiles_mem p cs pn).mp hpn with ⟨n, hmem, heq⟩ | ⟨n, cs', hmem, hin⟩
    · left
      subst heq
      exact (scanOne_files_mem p ext cs q).mpr ⟨n, hmem, hq, he⟩
    · right
      exact ⟨(pyJoin p n, cs'),
        (scanOne_dirs_mem p ext cs _).mpr ⟨n, cs', hmem, rfl⟩, pn, hin, hq, he⟩

theorem scanLoop_mem (ext : String) :
    ∀ (N : ℕ) (todo : List (String × List FS)) (found : List String),
      todoMeasure todo ≤ N → ∀ q,
      (q ∈ scanLoop ext todo found ↔ q ∈ found ∨
        ∃ pcs ∈ todo,
          ∃ pn ∈ allFiles pcs.1 pcs.2, q = pn.1 ∧ pyEndsWith pn.2 ext = true) := by
  intro N
  induction N with
  | zero =>
    intro todo found hN q
    have htodo : todo = [] := by
      cases todo with
      | nil => rfl
      | cons t ts =>
        exfalso
        simp only [todoMeasure, List.map_cons, List.sum_cons] at hN
        omega
    subst htodo
    rw [scanLoop]
    simp
  | succ N ih =>
    intro todo found hN q
    rw [scanLoop.eq_def]
    split
    case _ heq =>
      have htodo : todo = [] := List.getLast?_eq_none_iff.mp heq
      subst htodo
      simp
    case _ d heq =>
      have hdecomp : todo.dropLast ++ [d] = todo :=
        List.dropLast_append_getLast? d heq
      have hmeas : todoMeasure (todo.dropLast ++ (scanOne d.1 ext d.2).1) ≤ N := by
        have h1 := getLast?_measure todo d heq
        have h2 := scanOne_measure d.1 ext d.2
        rw [todoMeasure_append_thm]
        omega
      rw [ih _ _ hmeas q]
      rw [List.mem_append]
      constructor
      · intro h
        rcases h with (hf | hf) | ⟨pcs, hpcs, hrest⟩
        · exact Or.inl hf
        · right
          obtain ⟨pn, hpn, hq, he⟩ := (scanOne_step d.1 ext d.2 q).mp (Or.inl hf)
          refine ⟨d, ?_, pn, hpn, hq, he⟩
          rw [← hdecomp]
          exact List.mem_append_right _ (List.mem_singleton.mpr rfl)
        · rcases List.mem_append.mp hpcs with hd | hd
          · right
            refine ⟨pcs, ?_, hrest⟩
            rw [← hdecomp]
            exact List.mem_append_left _ hd
          · right
            obtain ⟨pn, hpn, hq, he⟩ :=
              (scanOne_step d.1 ext d.2 q).mp (Or.inr ⟨pcs, hd, hrest⟩)
            refine ⟨d, ?_, pn, hpn, hq, he⟩
            rw [← hdecomp]
            exact List.mem_append_right _ (List.mem_singleton.mpr rfl)
      · intro h
        rcases h with hf | ⟨pcs, hpcs, pn, hpn, hq, he⟩
        · exact Or.inl (Or.inl hf)
        · rw [← hdecomp] at hpcs
          rcases List.mem_append.mp hpcs with hd | hd
          · exact Or.inr ⟨pcs, List.mem_append_left _ hd, pn, hpn, hq, he⟩
          · obtain rfl : pcs = d := List.mem_singleton.mp hd
            rcases (scanOne_step pcs.1 ext pcs.2 q).mpr ⟨pn, hpn, hq, he⟩ with hf | hrest
            · exact Or.inl (Or.inr hf)
            · obtain ⟨pcs', hpcs', hrest'⟩ := hrest
              exact Or.inr ⟨pcs', List.mem_append_right _ hpcs', hrest'⟩

/-- C10's parenthetical example fails: "foo.geojson" does NOT end with the
string ".json" (its last five characters are "ojson"), so with the default
extension such a file is not collected. -/
theorem suffix_example_counterexample :
    pyEndsWith "foo.geojson" ".json" = false ∧
    "root/foo.geojson" ∉ discover ".json" [("root", [FS.file "foo.geojson"])] := by
  refine ⟨by decide, ?_⟩
  intro h
  have hc := (scanLoop_mem ".json" (todoMeasure [("root", [FS.file "foo.geojson"])])
    [("root", [FS.file "foo.geojson"])] [] le_rfl "root/foo.geojson").mp h
  rcases hc with hf | ⟨pcs, hpcs, pn, hpn, hq, he⟩
  · exact absurd hf (List.not_mem_nil _)
  · obtain rfl : pcs = ("root", [FS.file "foo.geojson"]) := List.mem_singleton.mp hpcs
    rcases (allFiles_mem "root" [FS.file "foo.geojson"] pn).mp hpn with
      ⟨n0, hm, heq⟩ | ⟨n0, cs0, hm, -⟩
    · have hn : n0 = "foo.geojson" := by
        injection List.mem_singleton.mp hm
      subst hn
      rw [heq] at he
      exact Bool.noConfusion ((by decide : pyEndsWith "foo.geojson" ".json" = false) ▸ he)
    · have := List.mem_singleton.mp hm
      exact FS.noConfusion this

/-- C10 (amended, as the counterexample forces): extension matching is
suffix-based, not exact-extension-based.  Part 1: discovery collects exactly
the files whose bare name ends with the target extension STRING (so, e.g., a
file named exactly ".json" is collected with the default extension, though
its splitext extension is empty — whereas "foo.geojson" is not, since its
name does not end in ".json").  Part 2: the corrected concrete example.
Part 3: the EXIF branch is gated by a suffix test on the image path — when
the path does not end with the EXIF extension the fallback runs even if
metadata is present, and when it does (and a user comment exists) the
metadata branch runs. -/
theorem suffix_based_matching :
    (∀ (ext root : String) (cs : List FS) (q : String),
      q ∈ discover ext [(root, cs)]
        ↔ ∃ pn ∈ allFiles root cs, q = pn.1 ∧ pyEndsWith pn.2 ext = true)
  ∧ pyEndsWith ".json" ".json" = true
  ∧ (∀ (img : ImageData) (ip entry ext : String) (ctx : ScaleCtx)
       (upd : Option (List (ℕ × Point))) (msgs : List String),
      resolveScale img ip entry ext = .ok (ctx, upd, msgs) →
      (pyEndsWith ip ext = false →
        ctx.exifFound = false ∧ upd = some (buildOcrMap img.ocr).1)
      ∧ (pyEndsWith ip ext = true → img.userComment.isSome → ctx.exifFound = true)) := by
  refine ⟨?_, by decide, ?_⟩
  · intro ext root cs q
    unfold discover
    rw [scanLoop_mem ext (todoMeasure [(root, cs)]) [(root, cs)] [] le_rfl q]
    simp
  · intro img ip entry ext ctx upd msgs h
    constructor
    · intro he
      obtain ⟨hupd, hexif⟩ := resolveScale_fallback_shape (Or.inl he) h
      exact ⟨hexif, hupd⟩
    · intro he hu
      exact (resolveScale_exif_shape he hu h).2

/-- Witness for C10 (amended): a root holding one file named exactly ".json"
with the default extension — the dotfile is collected. -/
theorem suffix_based_matching_witness :
    "root/.json" ∈ discover ".json" [("root", [FS.file ".json"])] := by
  refine (suffix_based_matching.1 ".json" "root" [FS.file ".json"] "root/.json").mpr ?_
  refine ⟨(pyJoin "root" ".json", ".json"), ?_, by decide, by decide⟩
  exact (allFiles_mem "root" [FS.file ".json"] _).mpr
    (Or.inl ⟨".json", List.mem_cons_self _ _, rfl⟩)

end Organoids
